import Mathlib

/-!
# cgiProgram.c: a shallow embedding and its verified properties

The test CGI program `src/utils/cgiProgram.c` is embedded function by function.

* A C string lives in a memory region `Mem`, a list of bytes (`Nat` below 256); a `char *`
  is an index into its region.  A read outside the region is outside the model and makes
  the embedded function return `none`.
* `char` is the signed 8-bit type of the x86 targets (`schar` reads a byte through it); for
  bytes below 128 the signedness plays no role.
* `int` values are `Int`; `size_t` values are `Nat` taken modulo `2 ^ 64`.
* Loops over memory carry a fuel argument that bounds the number of iterations by the size
  of the region; running out of fuel yields `none`.
* Storage that has been given up is not taken to keep its bytes: what is read from the
  local buffer of `getArgv` after the call is supplied by the world (`World.sbufReuse`).
-/

namespace CgiProgram

/-! ## Bytes and memory -/

/-- A memory region: the bytes of a buffer, the terminating NUL included. -/
abbrev Mem := List Nat

/-- The bytes of a string literal. -/
def str (s : String) : List Nat := s.toList.map Char.toNat

/-- Value of a byte read through the signed type `char`. -/
def schar (b : Nat) : Int := if b < 128 then (b : Int) else (b : Int) - 256

/-- The byte stored when an `int` is converted to `char`. -/
def toByte (x : Int) : Nat := (x % 256).toNat

/-- The C string that starts at the head of a memory suffix: the bytes before the first
NUL; `none` when the suffix holds no NUL. -/
def cstrFrom : List Nat → Option (List Nat)
  | [] => none
  | c :: rest => if c = 0 then some [] else (cstrFrom rest).map (c :: ·)

/-- The C string a pointer `p` into `m` designates. -/
def cstr (m : Mem) (p : Nat) : Option (List Nat) := cstrFrom (m.drop p)

/-! ## `hex2Char` and `descape` (lines 571-606) -/

/-- Embedding of `hex2Char`, lines 571-589; `s0` and `s1` are the bytes `s[0]` and `s[1]`.
The local `c` is a `char`, so the first digit is narrowed before it is multiplied. -/
def hex2Char (s0 s1 : Nat) : Nat :=
  let c : Int :=
    if schar s0 ≥ 65 then Int.land (schar s0) 0xDF - 65 else schar s0 - 48
  let c : Int := schar (toByte c)
  let c : Int :=
    if schar s1 ≥ 65 then c * 16 + (Int.land (schar s1) 0xDF - 65)
    else c * 16 + (schar s1 - 48)
  toByte c

/-- The `while (*src)` loop of `descape`, lines 597-605, with `src` and `dest` as indices
into the region.  The result is the region after the final `*dest = 0`. -/
def descapeLoop : Nat → Mem → Nat → Nat → Option Mem
  | 0, _, _, _ => none
  | fuel + 1, m, src, dest =>
    match m[src]? with
    | none => none
    | some c =>
      if c = 0 then
        some (m.set dest 0)
      else if c = 37 then
        match m[src + 1]?, m[src + 2]? with
        | some a, some b =>
          descapeLoop fuel (m.set dest (hex2Char a b)) (src + 3) (dest + 1)
        | _, _ => none
      else
        descapeLoop fuel (m.set dest c) (src + 1) (dest + 1)

/-- Embedding of `descape`, lines 592-606: in-place decoding of the C string at `src`. -/
def descape (m : Mem) (src : Nat) : Option Mem :=
  descapeLoop (m.length + 1) m src src

/-- The C string `descape` leaves behind when run on the NUL-terminated string `s`. -/
def descapeStr (s : List Nat) : Option (List Nat) :=
  (descape (s ++ [0]) 0).bind (fun m => cstr m 0)

/-! ## C library functions used on memory regions -/

/-- Model of the C library function `strspn` on a memory suffix: the number of leading
bytes that belong to `accept`; `none` when the scan leaves the region. -/
def strspn : List Nat → List Nat → Option Nat
  | [], _ => none
  | c :: rest, accept =>
    if c ≠ 0 ∧ c ∈ accept then (strspn rest accept).map (· + 1) else some 0

/-- Model of the C library function `strcspn` on a memory suffix: the number of leading
bytes that are neither NUL nor in `reject`; `none` when the scan leaves the region. -/
def strcspn : List Nat → List Nat → Option Nat
  | [], _ => none
  | c :: rest, reject =>
    if c = 0 ∨ c ∈ reject then some 0 else (strcspn rest reject).map (· + 1)

/-- Model of the C library function `strtok`, resumed at `start` (the buffer itself on the
first call, the saved pointer afterwards).  Result: the region, the token returned
(`none` for a null pointer) and the new saved pointer. -/
def strtok (m : Mem) (start : Nat) (delim : List Nat) : Option (Mem × Option Nat × Nat) :=
  match strspn (m.drop start) delim with
  | none => none
  | some k =>
    let tok := start + k
    match m[tok]? with
    | none => none
    | some c =>
      if c = 0 then some (m, none, tok)
      else
        match strcspn (m.drop tok) delim with
        | none => none
        | some n =>
          let e := tok + n
          match m[e]? with
          | none => none
          | some d =>
            if d = 0 then some (m, some tok, e) else some (m.set e 0, some tok, e + 1)

/-- Offset of the first occurrence of `c` in the C string at the head of a memory suffix;
`some none` when the string has none, `none` when the scan leaves the region. -/
def strchrFrom : List Nat → Nat → Option (Option Nat)
  | [], _ => none
  | x :: rest, c =>
    if x = c then some (some 0)
    else if x = 0 then some none
    else (strchrFrom rest c).map (fun r => r.map (· + 1))

/-- Model of the C library function `strchr`. -/
def strchr (m : Mem) (p : Nat) (c : Nat) : Option (Option Nat) :=
  (strchrFrom (m.drop p) c).map (fun r => r.map (p + ·))

/-- Model of the C library function `strncpy` reading from a memory suffix: the `n` bytes
written to the destination (the string, then NUL padding). -/
def strncpy : Nat → List Nat → Option (List Nat)
  | 0, _ => some []
  | _ + 1, [] => none
  | n + 1, c :: rest =>
    if c = 0 then some (List.replicate (n + 1) 0) else (strncpy n rest).map (c :: ·)

/-! ## `getVars` (lines 525-568) -/

/-- An entry of a `malloc`ed pointer array: not yet written, or a pointer (`none` for the
null pointer). -/
inductive Slot where
  | uninit : Slot
  | ptr (p : Option Nat) : Slot
  deriving DecidableEq, Repr

/-- The first loop of `getVars`, lines 535-541: `n` is the number of bytes left before
`&buf[buflen]`. -/
def getVarsScan : Nat → Mem → Nat → Nat → Option (Mem × Nat)
  | 0, m, _, keyCount => some (m, keyCount)
  | n + 1, m, cp, keyCount =>
    match m[cp]? with
    | none => none
    | some c =>
      if c = 43 then getVarsScan n (m.set cp 32) (cp + 1) keyCount
      else if c = 38 then getVarsScan n m (cp + 1) (keyCount + 1)
      else getVarsScan n m (cp + 1) keyCount

/-- The `strtok` loop of `getVars`, lines 553-565; `saved` is the pointer `strtok` resumes
from. -/
def getVarsLoop : Nat → Mem → Nat → Nat → Nat → List Slot → Option (Mem × List Slot)
  | 0, _, _, _, _, _ => none
  | fuel + 1, m, saved, keyCount, i, keyList =>
    match strtok m saved [38] with
    | none => none
    | some (m, none, _) => some (m, keyList)
    | some (m, some pp, saved) =>
      match strchr m pp 61 with
      | none => none
      | some (some e) =>
        let m := m.set e 0
        let eq := e + 1
        match descape m pp with
        | none => none
        | some m =>
          match descape m eq with
          | none => none
          | some m =>
            if i < keyCount * 2 then
              getVarsLoop fuel m saved keyCount (i + 2)
                ((keyList.set i (Slot.ptr (some pp))).set (i + 1) (Slot.ptr (some eq)))
            else getVarsLoop fuel m saved keyCount i keyList
      | some none =>
        match descape m pp with
        | none => none
        | some m =>
          if i < keyCount * 2 then
            getVarsLoop fuel m saved keyCount (i + 2)
              ((keyList.set i (Slot.ptr (some pp))).set (i + 1) (Slot.ptr none))
          else getVarsLoop fuel m saved keyCount i keyList

/-- Embedding of `getVars`, lines 525-568.  `cgiKeys` is the value of `*cgiKeys` on entry.
Result: the returned count, `*cgiKeys` on exit and the buffer.  The `malloc` of line 550,
whose result the source does not check, is taken to succeed and returns unwritten
entries. -/
def getVars (cgiKeys : List Slot) (buf : Mem) (buflen : Nat) :
    Option (Nat × List Slot × Mem) :=
  match getVarsScan buflen buf 0 (if buflen > 0 then 1 else 0) with
  | none => none
  | some (m, keyCount) =>
    if keyCount = 0 then some (0, cgiKeys, m)
    else
      match getVarsLoop (m.length + 1) m 0 keyCount 0
          (List.replicate (keyCount * 2) Slot.uninit) with
      | none => none
      | some (m, keyList) => some (keyCount, keyList, m)

/-- The key and value strings `printQuery` (lines 426-431) and `printPost` (lines 444-445)
read for the pair stored at entries `i` and `i + 1`; `none` when an entry was never
written or a string is not terminated. -/
def pairAt (m : Mem) (keyList : List Slot) (i : Nat) :
    Option (List Nat × Option (List Nat)) :=
  match keyList[i]?, keyList[i + 1]? with
  | some (Slot.ptr (some k)), some (Slot.ptr (some v)) =>
    match cstr m k, cstr m v with
    | some ks, some vs => some (ks, some vs)
    | _, _ => none
  | some (Slot.ptr (some k)), some (Slot.ptr none) =>
    match cstr m k with
    | some ks => some (ks, none)
    | none => none
  | _, _ => none

/-- The pairs read by `n` rounds of a loop `for (i = 0; i < n * 2; i += 2)` over a key
list, from index `i` on. -/
def readPairsFrom (m : Mem) (keyList : List Slot) :
    Nat → Nat → Option (List (List Nat × Option (List Nat)))
  | 0, _ => some []
  | n + 1, i =>
    match pairAt m keyList i with
    | none => none
    | some p => (readPairsFrom m keyList n (i + 2)).map (p :: ·)

/-- The pairs read by the loops of `printQuery` and `printPost`. -/
def readPairs (m : Mem) (keyList : List Slot) (n : Nat) :
    Option (List (List Nat × Option (List Nat))) :=
  readPairsFrom m keyList n 0

/-- Run `getVars` on the NUL-terminated string `s` with `buflen = strlen(s)`: the count
returned and the pairs its callers read. -/
def getVarsStr (s : List Nat) : Option (Nat × Option (List (List Nat × Option (List Nat)))) :=
  (getVars [] (s ++ [0]) s.length).map (fun r => (r.1, readPairs r.2.2 r.2.1 r.1))

/-! ## Program state and its environment -/

/-- Number of values of `size_t`. -/
def SIZE_MOD : Nat := 2 ^ 64

/-- Conversion of an integer value to `size_t`. -/
def sizeOfInt (x : Int) : Nat := (x % (SIZE_MOD : Int)).toNat

/-- Conversion of an integer value to `int`. -/
def intOfInt (x : Int) : Int := (x + 2 ^ 31) % 2 ^ 32 - 2 ^ 31

/-- The constant `INT_MAX`. -/
def INT_MAX : Nat := 2 ^ 31 - 1

/-- The constant `MAX_ARGV`, line 67. -/
def MAX_ARGV : Nat := 64

/-- What one call of `read` on the input channel finds: a failure, or bytes available (none
at the end of the stream). -/
inductive ReadEvent where
  | fail : ReadEvent
  | data (bs : List Nat) : ReadEvent
  deriving DecidableEq, Repr

/-- Everything the process receives from outside. -/
structure World where
  /-- The string `argv[0]`. -/
  argv0 : List Nat
  /-- The strings `argv[1]`, ..., `argv[argc - 1]`. -/
  args : List (List Nat)
  /-- The environment, as key and value strings. -/
  env : List (List Nat × List Nat)
  /-- The input channel (file descriptor 0). -/
  stdin : List ReadEvent
  /-- Whether an allocation request of the given size succeeds. -/
  alloc : Nat → Bool
  /-- The value of every byte that is read before the program has written it. -/
  junk : Nat
  /-- What `main` finds when it reads `argv[i]`, in place of the string that `getArgv`
  left for it in its local buffer `sbuf`: the storage of `sbuf` is given up when
  `getArgv` returns, and the calls that follow may write to it. -/
  sbufReuse : Nat → List Nat → List Nat
  /-- The value of `errno`. -/
  errno : Int

/-- The file-scope variables of lines 71-89.  `errLog` is a ghost field: the messages of
all calls of `error`, in order. -/
structure Globals where
  hasError : Nat
  nonParsedHeader : Nat
  numPostKeys : Nat
  numQueryKeys : Nat
  outputArgs : Nat
  outputEnv : Nat
  outputPost : Nat
  outputQuery : Nat
  outputBytes : Int
  outputHeaderLines : Int
  responseStatus : Int
  outputLocation : Option (List Nat)
  postBuf : Option Mem
  postBufLen : Nat
  postKeys : List Slot
  queryBuf : Mem
  queryLen : Nat
  queryKeys : List Slot
  responseMsg : Option (List Nat)
  timeout : Int
  errLog : List (List Nat)

/-- The state after the initialisations of lines 113-123. -/
def Globals.init : Globals where
  hasError := 0
  nonParsedHeader := 0
  numPostKeys := 0
  numQueryKeys := 0
  outputArgs := 0
  outputEnv := 0
  outputPost := 0
  outputQuery := 0
  outputBytes := 0
  outputHeaderLines := 0
  responseStatus := 0
  outputLocation := none
  postBuf := none
  postBufLen := 0
  postKeys := []
  queryBuf := []
  queryLen := 0
  queryKeys := []
  responseMsg := none
  timeout := 0
  errLog := []

/-- Model of the C library function `getenv`. -/
def getenv (env : List (List Nat × List Nat)) (key : List Nat) : Option (List Nat) :=
  (env.find? (fun kv => kv.1 = key)).map (fun kv => kv.2)

/-- Embedding of `safeGetenv`, lines 609-618. -/
def safeGetenv (env : List (List Nat × List Nat)) (key : List Nat) : List Nat :=
  match getenv env key with
  | none => []
  | some cp => cp

/-- Model of the C library function `strlen` on a string given by its bytes. -/
def strlen (s : List Nat) : Nat := (s.takeWhile (· ≠ 0)).length

/-- Model of the C library function `strstr`, as a test for a match. -/
def strstr (hay needle : List Nat) : Bool := hay.tails.any (fun t => needle.isPrefixOf t)

/-- The digits loop of `atoi`. -/
def atoiDigits : List Nat → Int → Int
  | [], acc => acc
  | c :: rest, acc =>
    if 48 ≤ c ∧ c ≤ 57 then atoiDigits rest (acc * 10 + ((c : Int) - 48)) else acc

/-- The constant `LONG_MAX` where `long` has 64 bits. -/
def LONG_MAX : Int := 2 ^ 63 - 1

/-- The number a string denotes for `strtol` with base 10: white space, an optional sign,
decimal digits. -/
def decimalValue (s : List Nat) : Int :=
  match s.dropWhile (fun c => c = 32 ∨ (9 ≤ c ∧ c ≤ 13)) with
  | 45 :: rest => -(atoiDigits rest 0)
  | 43 :: rest => atoiDigits rest 0
  | rest => atoiDigits rest 0

/-- Model of the C library function `strtol` with base 10, as a value: a number that a
`long` cannot hold is replaced by `LONG_MAX` or `LONG_MIN`. -/
def strtol (s : List Nat) : Int :=
  if decimalValue s > LONG_MAX then LONG_MAX
  else if decimalValue s < -LONG_MAX - 1 then -LONG_MAX - 1
  else decimalValue s

/-- Model of the C library function `atoi` as the GNU C library defines it,
`(int) strtol(s, NULL, 10)`: the `long` value is cut down to its low 32 bits. -/
def atoi (s : List Nat) : Int := intOfInt (strtol s)

/-- The text `printf` writes for `%d`. -/
def fmtInt (x : Int) : List Nat := str (toString x)

/-- The text `printf` writes for `%s`. -/
def fmtStr (s : Option (List Nat)) : List Nat :=
  match s with
  | none => str "(null)"
  | some t => t

/-- Embedding of `error`, lines 621-634; `msg` is the text `vsprintf` has formatted. -/
def error (g : Globals) (msg : List Nat) : Globals :=
  let g :=
    if g.responseMsg = none then { g with responseStatus := 400, responseMsg := some msg }
    else g
  { g with hasError := g.hasError + 1, errLog := g.errLog ++ [msg] }

/-- The call of `error` with a format that has a `%s` directive (line 512).  As long as no
message is recorded, `vsprintf` writes the text and its terminator to the local
`buf[4096]` of lines 624-628; a text that does not fit there is outside the model. -/
def errorFmt (g : Globals) (msg : List Nat) : Option Globals :=
  if g.responseMsg = none ∧ 4096 ≤ msg.length then none else some (error g msg)

/-! ## `getQueryString` and `getArgv` (lines 334-374, 462-475) -/

/-- Embedding of `getQueryString`, lines 462-475: the buffer and its length. -/
def getQueryString (env : List (List Nat × List Nat)) : Mem × Nat :=
  match getenv env (str "QUERY_STRING") with
  | none => ([0], 0)
  | some v => (v ++ [0], sizeOfInt (intOfInt (strlen v)))

/-- The search loop of `getArgv`, lines 346-351.  Result: the pointer `switches`. -/
def findSwitches : Nat → Mem → List Slot → Nat → Nat → Option (Option Nat)
  | 0, _, _, _, _ => none
  | fuel + 1, m, queryKeys, numQueryKeys, i =>
    if i < numQueryKeys then
      match queryKeys[i]? with
      | some (Slot.ptr (some k)) =>
        match cstr m k with
        | none => none
        | some ks =>
          if ks = str "HTTP_SWITCHES" then
            match queryKeys[i + 1]? with
            | some (Slot.ptr v) => some v
            | _ => none
          else findSwitches fuel m queryKeys numQueryKeys (i + 2)
      | _ => none
    else some none

/-- Lines 339-355 of `getArgv`: the query string is acquired and split, and the switch
string is looked up.  Result: the globals and the memory `switches` points to (`none`
for a null pointer). -/
def getArgvSwitches (w : World) (g : Globals) : Option (Globals × Option (List Nat)) :=
  let (queryBuf, queryLen) := getQueryString w.env
  match getVars g.queryKeys queryBuf queryLen with
  | none => none
  | some (numQueryKeys, queryKeys, queryBuf) =>
    let g := { g with queryBuf := queryBuf, queryLen := queryLen,
                      queryKeys := queryKeys, numQueryKeys := numQueryKeys }
    match findSwitches (numQueryKeys + 1) queryBuf queryKeys numQueryKeys 0 with
    | none => none
    | some (some p) => some (g, some (queryBuf.drop p))
    | some none =>
      match getenv w.env (str "HTTP_SWITCHES") with
      | none => some (g, none)
      | some v => some (g, some (v ++ [0]))

/-- The token loop of `getArgv`, lines 361-364. -/
def getArgvLoop : Nat → Mem → Option Nat → Nat → Nat → List (Option Nat) →
    Option (Mem × Nat × List (Option Nat))
  | 0, _, _, _, _, _ => none
  | fuel + 1, sbuf, next, saved, i, argvList =>
    match next with
    | none => some (sbuf, i, argvList)
    | some p =>
      if i < MAX_ARGV - 1 then
        match strtok sbuf saved [32, 9, 10] with
        | none => none
        | some (sbuf, next, saved) =>
          getArgvLoop fuel sbuf next saved (i + 1) (argvList.set i (some p))
      else some (sbuf, i, argvList)

/-- The strings designated by the `n` entries of `argvList` from index `j` on. -/
def readArgs (sbuf : Mem) (argvList : List (Option Nat)) : Nat → Nat → Option (List (List Nat))
  | 0, _ => some []
  | n + 1, j =>
    match (argvList.getD j none).bind (cstr sbuf) with
    | none => none
    | some t => (readArgs sbuf argvList n (j + 1)).map (t :: ·)

/-- The strings found in place of the tokens `toks` of entries `i`, `i + 1`, ... -/
def reread (f : Nat → List Nat → List Nat) : Nat → List (List Nat) → List (List Nat)
  | _, [] => []
  | i, t :: toks => f i t :: reread f (i + 1) toks

/-- Lines 356-372 of `getArgv`.  `argvList` holds the pointers into `sbuf` of entries
1 to 63; entry 0 is `originalArgv[0]`.  The result is `*pargc` and the strings of
`(*pargv)[0 .. *pargc - 1]` as the caller finds them.  Entries 1 and up point into the
local `sbuf` (line 336), which ends with the call: the caller does not read the tokens
`toks` that stand there on return but what the world has made of them by the time they
are read. -/
def getArgvBuild (w : World) (switches : Option (List Nat)) :
    Option (Nat × List (List Nat)) :=
  match switches with
  | some src =>
    match strncpy (1024 - 1) src with
    | none => none
    | some copied =>
      match descape (copied ++ [w.junk]) 0 with
      | none => none
      | some sbuf =>
        match strtok sbuf 0 [32, 9, 10] with
        | none => none
        | some (sbuf, next, saved) =>
          match getArgvLoop MAX_ARGV sbuf next saved 1 (List.replicate MAX_ARGV none) with
          | none => none
          | some (sbuf, i, argvList) =>
            match readArgs sbuf argvList (i - 1) 1 with
            | none => none
            | some toks => some (i, w.argv0 :: reread w.sbufReuse 1 toks)
  | none => some (1 + w.args.length, w.argv0 :: w.args)

/-- Embedding of `getArgv`, lines 334-374: the return value, the globals, `*pargc` and the
strings of `*pargv`. -/
def getArgv (w : World) (g : Globals) : Option (Int × Globals × Nat × List (List Nat)) :=
  match getArgvSwitches w g with
  | none => none
  | some (g, switches) =>
    match getArgvBuild w switches with
    | none => none
    | some (argc, argv) => some (0, g, argc, argv)

/-- A world with the given arguments, environment and input, in which the program is
called `cgiProgram`, every allocation succeeds, and the bytes of `sbuf` are still in
place when `main` reads them. -/
def World.simple (args : List (List Nat)) (env : List (List Nat × List Nat))
    (stdin : List ReadEvent) : World where
  argv0 := str "cgiProgram"
  args := args
  env := env
  stdin := stdin
  alloc := fun _ => true
  junk := 0
  sbufReuse := fun _ tok => tok
  errno := 0

/-- Lines 113-136 of `main`: the globals are initialised and the program name is
examined. -/
def startState (w : World) : Globals :=
  let g := Globals.init
  if strstr w.argv0 (str "nph-") then { g with nonParsedHeader := g.nonParsedHeader + 1 }
  else g

/-- The argument vector `getArgv` hands to `main` in a world. -/
def argvOf (w : World) : Option (Nat × List (List Nat)) :=
  (getArgv w (startState w)).map (fun r => r.2.2)

/-! ## `getPostData` (lines 478-522) -/

/-- Model of the system call `read` on the input channel: the value returned, the bytes
stored in the caller's buffer and the channel afterwards. -/
def read (ch : List ReadEvent) (size : Nat) : Int × List Nat × List ReadEvent :=
  match ch with
  | [] => (0, [], [])
  | ReadEvent.fail :: rest => (-1, [], rest)
  | ReadEvent.data bs :: rest =>
    if bs.length ≤ size then ((bs.length : Int), bs, rest)
    else ((size : Int), bs.take size, ReadEvent.data (bs.drop size) :: rest)

/-- Store `data` in a region from index `pos` on; `none` when it does not fit. -/
def writeAt (buf : Mem) (pos : Nat) (data : List Nat) : Option Mem :=
  if data = [] then some buf
  else if pos + data.length ≤ buf.length then
    some (buf.take pos ++ data ++ buf.drop (pos + data.length))
  else none

/-- Model of the C library function `realloc` when it succeeds. -/
def realloc (junk : Nat) (buf : Mem) (n : Nat) : Mem :=
  buf.take n ++ List.replicate (n - buf.length) junk

/-- Lines 518-521 of `getPostData`: the buffer is terminated and handed to the caller. -/
def getPostDataEnd (buf : Mem) (len : Nat) (g : Globals) : Option (Int × Globals) :=
  if len < buf.length then
    some (0, { g with postBuf := some (buf.set len 0), postBufLen := len })
  else none

/-- An upper bound on the number of `read` calls that can return something. -/
def readFuel : List ReadEvent → Nat
  | [] => 1
  | ReadEvent.fail :: rest => readFuel rest + 1
  | ReadEvent.data bs :: rest => readFuel rest + bs.length + 1

/-- The `while (len < limit)` loop of `getPostData`, lines 497-517, followed by lines
518-521.  `bytes` has the unsigned type `size_t`, so is `len`. -/
def getPostDataLoop : Nat → World → Option (List Nat) → Nat → Nat → List ReadEvent →
    Mem → Nat → Nat → Globals → Option (Int × Globals)
  | 0, _, _, _, _, _, _, _, _, _ => none
  | fuel + 1, w, contentLength, size, limit, ch, buf, bufsize, len, g =>
    if len < limit then
      let need := (len + size + 1) % SIZE_MOD
      if need > bufsize ∧ w.alloc need = false then
        some (-1, error g (str "Couldn't allocate memory to read post data"))
      else
        let buf := if need > bufsize then realloc w.junk buf need else buf
        let bufsize := if need > bufsize then need else bufsize
        match read ch size with
        | (r, data, ch) =>
          match writeAt buf len data with
          | none => none
          | some buf =>
            let bytes : Nat := sizeOfInt r
            if bytes < 0 then
              some (-1, error g (str "Couldn't read CGI input " ++ fmtInt w.errno))
            else if bytes = 0 then
              if contentLength.isSome ∧ len ≠ limit then
                match errorFmt g (str "Missing content data (Content-Length: " ++
                    fmtStr contentLength ++ str ")") with
                | none => none
                | some g => getPostDataEnd buf len g
              else getPostDataEnd buf len g
            else
              getPostDataLoop fuel w contentLength size limit ch buf bufsize
                ((len + bytes) % SIZE_MOD) g
    else getPostDataEnd buf len g

/-- Embedding of `getPostData`, lines 478-522, called as in line 229 with the addresses of
`postBuf` and `postBufLen`: the return value and the globals. -/
def getPostData (w : World) (g : Globals) : Option (Int × Globals) :=
  let contentLength := getenv w.env (str "CONTENT_LENGTH")
  let size : Nat :=
    match contentLength with
    | some cl => sizeOfInt (atoi cl)
    | none => 4096
  let limit : Nat :=
    match contentLength with
    | some _ => size
    | none => INT_MAX
  let bufsize := (size + 1) % SIZE_MOD
  if w.alloc bufsize = false then
    some (-1, error g (str "Couldn't allocate memory to read post data"))
  else
    getPostDataLoop (readFuel w.stdin) w contentLength size limit w.stdin
      (List.replicate bufsize w.junk) bufsize 0 g

/-! ## `main` up to the rendering of the response (lines 108-245) -/

/-- How a run ends: by `exit` with what has been written to the standard output and to the
diagnostic stream, or by going on to render the normal response (lines 247-327) from
the globals and the effective argument vector. -/
inductive Outcome where
  | exit (code : Nat) (out : List Nat) (diag : List Nat) : Outcome
  | render (g : Globals) (argv : List (List Nat)) : Outcome

/-- The loop over the characters of one switch argument, lines 144-214: `cp` is the rest
of the argument, `i` the index into `argv`, `err` the local `err`. -/
def parseSwitch (argv : List (List Nat)) (argc : Nat) :
    List Nat → Nat → Globals → Nat → Nat × Globals × Nat
  | [], i, g, err => (i, g, err)
  | c :: cp, i, g, err =>
    if c = 97 then parseSwitch argv argc cp i { g with outputArgs := g.outputArgs + 1 } err
    else if c = 98 then
      if i + 1 ≥ argc then parseSwitch argv argc cp (i + 1) g 152
      else parseSwitch argv argc cp (i + 1)
        { g with outputBytes := atoi (argv.getD (i + 1) []) } err
    else if c = 101 then
      parseSwitch argv argc cp i { g with outputEnv := g.outputEnv + 1 } err
    else if c = 104 then
      if i + 1 ≥ argc then parseSwitch argv argc cp (i + 1) g 164
      else parseSwitch argv argc cp (i + 1)
        { g with outputHeaderLines := atoi (argv.getD (i + 1) []),
                 nonParsedHeader := g.nonParsedHeader + 1 } err
    else if c = 108 then
      if i + 1 ≥ argc then parseSwitch argv argc cp (i + 1) g 173
      else parseSwitch argv argc cp (i + 1)
        { g with outputLocation := some (argv.getD (i + 1) []),
                 responseStatus := if g.responseStatus = 0 then 302 else g.responseStatus }
        err
    else if c = 110 then
      parseSwitch argv argc cp i { g with nonParsedHeader := g.nonParsedHeader + 1 } err
    else if c = 112 then
      parseSwitch argv argc cp i { g with outputPost := g.outputPost + 1 } err
    else if c = 113 then
      parseSwitch argv argc cp i { g with outputQuery := g.outputQuery + 1 } err
    else if c = 115 then
      if i + 1 ≥ argc then parseSwitch argv argc cp (i + 1) g 196
      else parseSwitch argv argc cp (i + 1)
        { g with responseStatus := atoi (argv.getD (i + 1) []) } err
    else if c = 116 then
      if i + 1 ≥ argc then parseSwitch argv argc cp (i + 1) g 204
      else parseSwitch argv argc cp (i + 1)
        { g with timeout := atoi (argv.getD (i + 1) []) } err
    else parseSwitch argv argc cp i g 211

/-- The loop over the arguments, lines 140-215.  Result: the globals and `err`. -/
def parseArgs (argv : List (List Nat)) (argc : Nat) :
    Nat → Nat → Globals → Nat → Globals × Nat
  | 0, _, g, err => (g, err)
  | fuel + 1, i, g, err =>
    if i < argc then
      match argv.getD i [] with
      | 45 :: cp =>
        match parseSwitch argv argc cp i g err with
        | (i, g, err) => parseArgs argv argc fuel (i + 1) g err
      | _ => parseArgs argv argc fuel (i + 1) g err
    else (g, err)

/-- The usage message of lines 217-220. -/
def usageText : List Nat :=
  str ("usage: cgiProgram -aenp [-b bytes] [-h lines]\n" ++
    "\t[-l location] [-s status] [-t timeout]\n" ++
    "\tor set the HTTP_SWITCHES environment variable\n") ++
  str "Error at cgiProgram:" ++ fmtInt 220 ++ str "\n"

/-- The error page of lines 240-241. -/
def errorPage (responseStatus : Int) (responseMsg : Option (List Nat)) : List Nat :=
  str "HTTP/1.0 " ++ fmtInt responseStatus ++ str " " ++ fmtStr responseMsg ++
    str "\r\n\r\n" ++
  str "<HTML><BODY><p>Error: " ++ fmtInt responseStatus ++ str " -- " ++
    fmtStr responseMsg ++ str "</p></BODY></HTML>\r\n"

/-- Lines 224-236 of `main`: the POST body is acquired and split. -/
def acquirePost (w : World) (g : Globals) : Option Globals :=
  match getenv w.env (str "REQUEST_METHOD") with
  | none => some g
  | some method =>
    if method = str "POST" then
      match getPostData w g with
      | none => none
      | some (ret, g) =>
        let g := if ret < 0 then error g (str "Can't read CGI input") else g
        if safeGetenv w.env (str "CONTENT_TYPE") =
            str "application/x-www-form-urlencoded" then
          match getVars g.postKeys (g.postBuf.getD []) g.postBufLen with
          | none => none
          | some (n, postKeys, postBuf) =>
            some { g with numPostKeys := n, postKeys := postKeys,
                          postBuf := g.postBuf.map (fun _ => postBuf) }
        else some g
    else some g

/-- Lines 238-245 of `main`, and the hand-over to the rendering. -/
def finish (g : Globals) (argv : List (List Nat)) : Outcome :=
  if g.hasError ≠ 0 then
    Outcome.exit 2
      (if g.nonParsedHeader = 0 then errorPage g.responseStatus g.responseMsg else [])
      (str "cgiProgram: ERROR: " ++ fmtStr g.responseMsg ++ str "\n")
  else Outcome.render g argv

/-- Lines 140-245 of `main`: from the effective argument vector to the end of the run or
the start of the rendering. -/
def mainFromArgv (w : World) (g : Globals) (argc : Nat) (argv : List (List Nat)) :
    Option Outcome :=
  match parseArgs argv argc argc 1 g 0 with
  | (g, err) =>
    if err ≠ 0 then some (Outcome.exit 255 [] usageText)
    else
      match acquirePost w g with
      | none => none
      | some g => some (finish g argv)

/-- Embedding of `main`, lines 108-245.  The arguments are parsed as `main` finds them:
those built from a switch string are read from the storage that was `sbuf`, see
`getArgvBuild`. -/
def main (w : World) : Option Outcome :=
  match getArgv w (startState w) with
  | none => none
  | some (ret, g, argc, argv) =>
    let g := if ret < 0 then error g (str "Can't read CGI input") else g
    mainFromArgv w g argc argv

/-- The loop `for (i = 0; i < outputBytes; i++)` of lines 283-295.  The state is `i`, `j`,
the global `outputBytes` and the characters written so far; the result is the characters
written and `outputBytes` on exit.  An `int` that is incremented wraps around. -/
def bodyLoop : Nat → Int → Int → Int → List Nat → Option (List Nat × Int)
  | 0, _, _, _, _ => none
  | fuel + 1, i, j, outputBytes, out =>
    if i < outputBytes then
      let out := out ++ [toByte (48 + j)]
      let j := intOfInt (j + 1)
      if j > 9 then
        let outputBytes := intOfInt (outputBytes + 1)
        let out := if outputBytes > 0 then out ++ [13] else out
        let outputBytes := intOfInt (outputBytes + 1)
        let out := if outputBytes > 0 then out ++ [10] else out
        bodyLoop fuel (intOfInt (i + 1)) 0 outputBytes out
      else bodyLoop fuel (intOfInt (i + 1)) j outputBytes out
    else some (out, outputBytes)

/-- Embedding of lines 281-297 of `main`: the characters written for the synthetic body,
and the globals afterwards.  The fuel covers every run of the loop: the bound grows by
2 only once in 10 rounds. -/
def syntheticBody (g : Globals) : Option (List Nat × Globals) :=
  if g.outputBytes ≠ 0 then
    match bodyLoop (2 * g.outputBytes.toNat + 2) 0 0 g.outputBytes [] with
    | none => none
    | some (out, outputBytes) => some (out, { g with outputBytes := outputBytes })
  else some ([], g)

/-! ## Notions used to state the properties -/

/-- A request with the given query string and the given `HTTP_SWITCHES` variable in the
environment. -/
def World.query (queryString httpSwitches : String) : World :=
  World.simple []
    [(str "QUERY_STRING", str queryString), (str "HTTP_SWITCHES", str httpSwitches)] []

/-- A POST request with the given arguments, content length, content type and input. -/
def World.post (args : List (List Nat)) (contentLength contentType : String)
    (stdin : List ReadEvent) : World :=
  World.simple args
    [(str "REQUEST_METHOD", str "POST"), (str "CONTENT_LENGTH", str contentLength),
     (str "CONTENT_TYPE", str contentType)] stdin

/-- A hexadecimal digit: `0`-`9`, `a`-`f` or `A`-`F`. -/
def isHex (c : Nat) : Bool :=
  (48 ≤ c && c ≤ 57) || (97 ≤ c && c ≤ 102) || (65 ≤ c && c ≤ 70)

/-- Every `%` of the string is followed by two hexadecimal digits. -/
def wellEscaped : List Nat → Bool
  | [] => true
  | c :: rest =>
    if c = 37 then
      match rest with
      | a :: b :: rest2 => isHex a && isHex b && wellEscaped rest2
      | _ => false
    else wellEscaped rest

/-- A decimal digit. -/
def isDigit (c : Nat) : Bool := 48 ≤ c && c ≤ 57

/-- Every `%` of the string is followed by two decimal digits. -/
def digitEscaped : List Nat → Bool
  | [] => true
  | c :: rest =>
    if c = 37 then
      match rest with
      | a :: b :: rest2 => isDigit a && isDigit b && digitEscaped rest2
      | _ => false
    else digitEscaped rest

/-- The value of a hexadecimal digit, lower and upper case alike. -/
def hexVal (c : Nat) : Nat :=
  if 48 ≤ c ∧ c ≤ 57 then c - 48 else if 97 ≤ c ∧ c ≤ 102 then c - 87 else c - 55

/-- Decoding of the escapes as the specification states it: each `%XY` is replaced by the
single byte whose value is the hexadecimal number `XY`; every other byte is kept. -/
def hexDecode : List Nat → List Nat
  | [] => []
  | c :: rest =>
    if c = 37 then
      match rest with
      | a :: b :: rest2 => (16 * hexVal a + hexVal b) :: hexDecode rest2
      | _ => c :: rest
    else c :: hexDecode rest

/-- The string `out` is the string `s` with each `%XY` replaced by one byte and every
other byte, `+` included, kept as it is; where `X` and `Y` are decimal digits the byte
has the value `XY`. -/
def escapesOnly : List Nat → List Nat → Bool
  | [], [] => true
  | c :: rest, v :: out =>
    if c = 37 then
      match rest with
      | a :: b :: rest2 =>
        (!(isDigit a && isDigit b) || v = 16 * (a - 48) + (b - 48)) && escapesOnly rest2 out
      | _ => false
    else v = c && escapesOnly rest out
  | _, _ => false

/-- The string that the loop of `descape` writes: each `%` and the two bytes after it are
replaced by the byte that `hex2Char` computes from them, every other byte is kept. -/
def pctDecode : List Nat → List Nat
  | [] => []
  | c :: rest =>
    if c = 37 then
      match rest with
      | a :: b :: rest2 => hex2Char a b :: pctDecode rest2
      | _ => [c]
    else c :: pctDecode rest

/-- A byte other than `&`, `+`, `%` and NUL. -/
def plainByte (c : Nat) : Bool := c ≠ 38 && c ≠ 43 && c ≠ 37 && c ≠ 0

/-- A pair whose key is not empty and free of `=`, and whose key and value are free of
`&`, `+`, `%` and NUL. -/
def goodPair (p : List Nat × Option (List Nat)) : Bool :=
  !p.1.isEmpty && p.1.all (fun c => plainByte c && c ≠ 61) &&
    (match p.2 with
     | none => true
     | some v => v.all plainByte)

/-- The segment that stands for a pair: `k`, or `k=v`. -/
def segText (p : List Nat × Option (List Nat)) : List Nat :=
  match p.2 with
  | none => p.1
  | some v => p.1 ++ 61 :: v

/-- Strings joined by a separator byte. -/
def joinWith (sep : Nat) : List (List Nat) → List Nat
  | [] => []
  | [s] => s
  | s :: t :: rest => s ++ sep :: joinWith sep (t :: rest)

/-- A segment once `getVars` has split it: the `=` is overwritten by NUL. -/
def segCooked (p : List Nat × Option (List Nat)) : List Nat :=
  match p.2 with
  | none => p.1
  | some v => p.1 ++ 0 :: v

/-- The key-list entries of the segments laid out from index `base` of the buffer on. -/
def allSlots : Nat → List (List Nat × Option (List Nat)) → List Slot
  | _, [] => []
  | base, p :: rest =>
    Slot.ptr (some base) :: Slot.ptr (p.2.map (fun _ => base + p.1.length + 1)) ::
      allSlots (base + (segText p).length + 1) rest

/-- A byte that separates switches: space, tab or newline. -/
def isSep (c : Nat) : Bool := c = 32 || c = 9 || c = 10

/-- The maximal runs of bytes other than space, tab and newline, in order. -/
def runs (s : List Nat) : List (List Nat) :=
  (s.splitOnP isSep).filter (fun t => !t.isEmpty)

/-- What the first loop of `getVars` makes of a byte: `+` becomes a space. -/
def plusToSpace (c : Nat) : Nat := if c = 43 then 32 else c

/-- A switch character that takes a value: `b`, `h`, `l`, `s` or `t`. -/
def valueSwitch (c : Nat) : Bool := c = 98 || c = 104 || c = 108 || c = 115 || c = 116

/-- A switch character of the usage text: one of `a b e h l n p q s t`. -/
def knownSwitch (c : Nat) : Bool :=
  c = 97 || c = 98 || c = 101 || c = 104 || c = 108 || c = 110 || c = 112 || c = 113 ||
    c = 115 || c = 116

/-- The usage error as the specification states it, over the arguments after `argv[0]`;
`pending` is the number of arguments still owed to value-taking switches.  An error is
an unknown switch character in an argument that begins with `-` and is not consumed as
a value, or a value-taking switch with no argument left for it. -/
def usageError : Nat → List (List Nat) → Bool
  | pending, [] => decide (0 < pending)
  | pending + 1, _ :: rest => usageError pending rest
  | 0, a :: rest =>
    match a with
    | 45 :: sw => sw.any (fun c => !knownSwitch c) || usageError (sw.countP valueSwitch) rest
    | _ => usageError 0 rest

/-- Two states with the same error flag, error log and recorded message. -/
def SameErr (g g2 : Globals) : Prop :=
  g2.hasError = g.hasError ∧ g2.errLog = g.errLog ∧ g2.responseMsg = g.responseMsg

/-- The first `d` digits of the cycle `0`, ..., `9`, with CR LF after every tenth
digit. -/
def bodyText : Nat → List Nat
  | 0 => []
  | d + 1 => bodyText d ++ [48 + d % 10] ++ (if (d + 1) % 10 = 0 then [13, 10] else [])

/-- The value at which the counter `outputBytes` ends when the loop is entered with the
multiple of ten `n`; it is also the number of digits written. -/
def bodyDigits (n : Nat) : Nat := n + 2 * ((n - 2) / 8)

/-! # Properties -/

/-! ## Memory regions -/

theorem take_set_succ (m : List Nat) (d v : Nat) (h : d < m.length) :
    (m.set d v).take (d + 1) = m.take d ++ [v] := by
  induction m generalizing d with
  | nil => simp at h
  | cons x xs ih =>
    cases d with
    | zero => simp
    | succ d =>
      simp only [List.set_cons_succ, List.take_succ_cons, List.cons_append, List.cons.injEq,
        true_and]
      exact ih d (by simpa using h)

theorem set_eq_take_cons_drop (m : List Nat) (d v : Nat) (h : d < m.length) :
    m.set d v = m.take d ++ v :: m.drop (d + 1) := by
  induction m generalizing d with
  | nil => simp at h
  | cons x xs ih =>
    cases d with
    | zero => simp
    | succ d =>
      simp only [List.set_cons_succ, List.take_succ_cons, List.cons_append, List.cons.injEq,
        true_and, List.drop_succ_cons]
      exact ih d (by simpa using h)

theorem getElem?_of_drop_eq {m : List Nat} {p : Nat} {c : Nat} {rest : List Nat}
    (h : m.drop p = c :: rest) : m[p]? = some c := by
  have := List.getElem?_drop m p 0
  rw [h] at this
  simpa using this.symm

theorem drop_succ_of_drop_eq {m : List Nat} {p : Nat} {c : Nat} {rest : List Nat}
    (h : m.drop p = c :: rest) : m.drop (p + 1) = rest := by
  have : m.drop (p + 1) = (m.drop p).drop 1 := by rw [List.drop_drop, Nat.add_comm]
  rw [this, h]; rfl

theorem lt_length_of_drop_eq {m : List Nat} {p : Nat} {c : Nat} {rest : List Nat}
    (h : m.drop p = c :: rest) : p < m.length := by
  by_contra hn
  rw [List.drop_eq_nil_of_le (by omega)] at h
  cases h

/-! ## `descape` -/

theorem wellEscaped_cons_ne {c : Nat} {s : List Nat} (h : c ≠ 37) :
    wellEscaped (c :: s) = wellEscaped s := by
  rcases s with _ | ⟨a, _ | ⟨b, t⟩⟩ <;> simp [wellEscaped, h]

theorem pctDecode_cons_ne {c : Nat} {s : List Nat} (h : c ≠ 37) :
    pctDecode (c :: s) = c :: pctDecode s := by
  rcases s with _ | ⟨a, _ | ⟨b, t⟩⟩ <;> simp [pctDecode, h]

theorem pctDecode_escape (a b : Nat) (s : List Nat) :
    pctDecode (37 :: a :: b :: s) = hex2Char a b :: pctDecode s := by
  simp [pctDecode]

theorem descapeLoop_decode (fuel : Nat) :
    ∀ (s : List Nat) (m : Mem) (src dest : Nat) (post : List Nat),
      wellEscaped s = true → 0 ∉ s → m.drop src = s ++ 0 :: post → dest ≤ src →
      s.length < fuel →
      descapeLoop fuel m src dest =
        some (m.take dest ++ pctDecode s ++ 0 :: m.drop (dest + (pctDecode s).length + 1)) := by
  induction fuel with
  | zero => intro s m src dest post _ _ _ _ hf; omega
  | succ fuel ih =>
    intro s m src dest post hw h0 hd hle hf
    have hsrc : src < m.length := by
      cases s <;> exact lt_length_of_drop_eq hd
    cases s with
    | nil =>
      have hr : m[src]? = some 0 := getElem?_of_drop_eq hd
      simp only [descapeLoop, hr, if_true, pctDecode, List.append_nil, List.length_nil,
        Nat.add_zero]
      rw [set_eq_take_cons_drop m dest 0 (by omega)]
    | cons c s1 =>
      have hr : m[src]? = some c := getElem?_of_drop_eq hd
      have hc0 : c ≠ 0 := by
        intro h; apply h0; simp [h]
      have h01 : 0 ∉ s1 := by
        intro h; apply h0; simp [h]
      have hd1 : m.drop (src + 1) = s1 ++ 0 :: post := drop_succ_of_drop_eq hd
      by_cases hc : c = 37
      · subst hc
        match s1, hw, h01, hd1, hf with
        | [], hw, _, _, _ => simp [wellEscaped] at hw
        | [_], hw, _, _, _ => simp [wellEscaped] at hw
        | a :: b :: s2, hw, h01, hd1, hf =>
          have hr1 : m[src + 1]? = some a := getElem?_of_drop_eq hd1
          have hd2 : m.drop (src + 1 + 1) = (b :: s2) ++ 0 :: post :=
            drop_succ_of_drop_eq hd1
          have hr2 : m[src + 2]? = some b := getElem?_of_drop_eq hd2
          have hd3 : m.drop (src + 3) = s2 ++ 0 :: post := drop_succ_of_drop_eq hd2
          have hw2 : wellEscaped s2 = true := by
            simp [wellEscaped] at hw; exact hw.2
          have h02 : 0 ∉ s2 := by
            intro h; apply h01; simp [h]
          have hstep := ih s2 (m.set dest (hex2Char a b)) (src + 3) (dest + 1) post hw2 h02
            (by rw [List.drop_set_of_lt _ _ (by omega)]; exact hd3) (by omega)
            (by simp at hf; omega)
          simp only [descapeLoop, hr, hr1, hr2, hc0, if_false, if_true, hstep,
            pctDecode_escape]
          rw [take_set_succ m dest _ (by omega), List.drop_set_of_lt _ _ (by omega)]
          simp [Nat.add_assoc, Nat.add_comm, Nat.add_left_comm]
      · have hw1 : wellEscaped s1 = true := by
          rw [wellEscaped_cons_ne hc] at hw; exact hw
        have hstep := ih s1 (m.set dest c) (src + 1) (dest + 1) post hw1 h01
          (by rw [List.drop_set_of_lt _ _ (by omega)]; exact hd1) (by omega)
          (by simp at hf; omega)
        simp only [descapeLoop, hr, hc0, hc, if_false, hstep, pctDecode_cons_ne hc]
        rw [take_set_succ m dest _ (by omega), List.drop_set_of_lt _ _ (by omega)]
        simp [Nat.add_assoc, Nat.add_comm, Nat.add_left_comm]

theorem set_length_append (a : List Nat) (x y : Nat) (b : List Nat) :
    (a ++ x :: b).set a.length y = a ++ y :: b := by
  induction a with
  | nil => rfl
  | cons h t ih => simp [ih]

theorem getElem?_length_append {α : Type} (a : List α) (x : α) (b : List α) :
    (a ++ x :: b)[a.length]? = some x := by
  induction a with
  | nil => simp
  | cons h t ih => simpa using ih

theorem getElem?_length_succ_append {α : Type} (a : List α) (x y : α) (b : List α) :
    (a ++ x :: y :: b)[a.length + 1]? = some y := by
  have := getElem?_length_append (a ++ [x]) y b
  simpa using this

theorem pctDecode_plain (s : List Nat) (h : 37 ∉ s) : pctDecode s = s := by
  induction s with
  | nil => rfl
  | cons c t ih =>
    have hc : c ≠ 37 := by
      intro e; apply h; simp [e]
    rw [pctDecode_cons_ne hc, ih (by intro e; apply h; simp [e])]

theorem wellEscaped_plain (s : List Nat) (h : 37 ∉ s) : wellEscaped s = true := by
  induction s with
  | nil => rfl
  | cons c t ih =>
    have hc : c ≠ 37 := by
      intro e; apply h; simp [e]
    rw [wellEscaped_cons_ne hc, ih (by intro e; apply h; simp [e])]

/-- In place, `descape` turns the string `s` that starts at `pre.length` into
`pctDecode s`, followed by a NUL and by the bytes it has not overwritten. -/
theorem descape_decode (pre s post : List Nat) (hw : wellEscaped s = true) (h0 : 0 ∉ s) :
    descape (pre ++ s ++ 0 :: post) pre.length =
      some (pre ++ pctDecode s ++
        0 :: (s ++ 0 :: post).drop ((pctDecode s).length + 1)) := by
  have hd : (pre ++ s ++ 0 :: post).drop pre.length = s ++ 0 :: post := by
    rw [List.append_assoc, List.drop_left]
  have ht : (pre ++ s ++ 0 :: post).take pre.length = pre := by
    rw [List.append_assoc, List.take_left]
  have hdd : (pre ++ s ++ 0 :: post).drop (pre.length + (pctDecode s).length + 1) =
      (s ++ 0 :: post).drop ((pctDecode s).length + 1) := by
    rw [← hd, List.drop_drop]
    congr 1
  unfold descape
  rw [descapeLoop_decode _ s _ pre.length pre.length post hw h0 hd (Nat.le_refl _)
    (by simp; omega), ht, hdd]

theorem descape_plain (pre s post : List Nat) (h37 : 37 ∉ s) (h0 : 0 ∉ s) :
    descape (pre ++ s ++ 0 :: post) pre.length = some (pre ++ s ++ 0 :: post) := by
  rw [descape_decode pre s post (wellEscaped_plain s h37) h0, pctDecode_plain s h37]
  congr 2
  have : (s ++ 0 :: post).drop (s.length + 1) = post := by
    simp
  rw [this]

/-! ## `strtok` and `strchr` -/

theorem strspn_skip (ds : List Nat) (c : Nat) (rest delim : List Nat)
    (hds : ∀ x ∈ ds, x ≠ 0 ∧ x ∈ delim) (hc : c = 0 ∨ c ∉ delim) :
    strspn (ds ++ c :: rest) delim = some ds.length := by
  induction ds with
  | nil =>
    rcases hc with hc | hc <;> simp [strspn, hc]
  | cons d t ih =>
    have hd := hds d (by simp)
    have := ih (fun x hx => hds x (by simp [hx]))
    simp [strspn, hd.1, hd.2, this]

theorem strcspn_run (s : List Nat) (d : Nat) (rest delim : List Nat)
    (hs : ∀ x ∈ s, x ≠ 0 ∧ x ∉ delim) (hd : d = 0 ∨ d ∈ delim) :
    strcspn (s ++ d :: rest) delim = some s.length := by
  induction s with
  | nil =>
    rcases hd with hd | hd <;> simp [strcspn, hd]
  | cons c t ih =>
    have hc := hs c (by simp)
    have := ih (fun x hx => hs x (by simp [hx]))
    simp [strcspn, hc.1, hc.2, this]

theorem strtok_none (pre ds rest delim : List Nat) (hds : ∀ x ∈ ds, x ≠ 0 ∧ x ∈ delim) :
    strtok (pre ++ ds ++ 0 :: rest) pre.length delim =
      some (pre ++ ds ++ 0 :: rest, none, pre.length + ds.length) := by
  have hd : (pre ++ ds ++ 0 :: rest).drop pre.length = ds ++ 0 :: rest := by
    rw [List.append_assoc, List.drop_left]
  have hr : (pre ++ ds ++ 0 :: rest)[pre.length + ds.length]? = some 0 := by
    have := getElem?_length_append (pre ++ ds) 0 rest
    simpa using this
  simp only [strtok, hd, strspn_skip ds 0 rest delim hds (Or.inl rfl), hr, if_true]

theorem strtok_token (pre ds s : List Nat) (d : Nat) (rest delim : List Nat)
    (hds : ∀ x ∈ ds, x ≠ 0 ∧ x ∈ delim) (hne : s ≠ [])
    (hs : ∀ x ∈ s, x ≠ 0 ∧ x ∉ delim) (hd : d = 0 ∨ d ∈ delim) :
    strtok (pre ++ ds ++ s ++ d :: rest) pre.length delim =
      some (pre ++ ds ++ s ++ 0 :: rest, some (pre.length + ds.length),
        pre.length + ds.length + s.length + (if d = 0 then 0 else 1)) := by
  obtain ⟨c, t, rfl⟩ : ∃ c t, s = c :: t := by
    cases s with
    | nil => exact absurd rfl hne
    | cons c t => exact ⟨c, t, rfl⟩
  have hc := hs c (by simp)
  have hd1 : (pre ++ ds ++ (c :: t) ++ d :: rest).drop pre.length
      = ds ++ c :: (t ++ d :: rest) := by
    simp [List.append_assoc]
  have hd2 : (pre ++ ds ++ (c :: t) ++ d :: rest).drop (pre.length + ds.length)
      = (c :: t) ++ d :: rest := by
    simp
  have hr1 : (pre ++ ds ++ (c :: t) ++ d :: rest)[pre.length + ds.length]? = some c :=
    getElem?_of_drop_eq hd2
  have hr2 : (pre ++ ds ++ (c :: t) ++ d :: rest)[pre.length + ds.length + (c :: t).length]?
      = some d := by
    have := getElem?_length_append (pre ++ ds ++ (c :: t)) d rest
    simpa [Nat.add_assoc] using this
  have hset : (pre ++ ds ++ (c :: t) ++ d :: rest).set
      (pre.length + ds.length + (c :: t).length) 0 = pre ++ ds ++ (c :: t) ++ 0 :: rest := by
    simp [Nat.add_assoc]
  simp only [strtok, hd1, strspn_skip ds c (t ++ d :: rest) delim hds (Or.inr hc.2), hr1,
    hc.1, if_false, hd2, strcspn_run (c :: t) d rest delim hs hd, hr2]
  by_cases hz : d = 0
  · subst hz; simp
  · simp only [hz, if_false, hset]

theorem strchrFrom_found (k : List Nat) (c : Nat) (rest : List Nat)
    (hk : ∀ x ∈ k, x ≠ 0 ∧ x ≠ c) :
    strchrFrom (k ++ c :: rest) c = some (some k.length) := by
  induction k with
  | nil => simp [strchrFrom]
  | cons x t ih =>
    have hx := hk x (by simp)
    have := ih (fun y hy => hk y (by simp [hy]))
    simp [strchrFrom, hx.1, hx.2, this]

theorem strchrFrom_absent (k : List Nat) (c : Nat) (rest : List Nat) (hc : c ≠ 0)
    (hk : ∀ x ∈ k, x ≠ 0 ∧ x ≠ c) :
    strchrFrom (k ++ 0 :: rest) c = some none := by
  induction k with
  | nil => simp [strchrFrom, hc.symm]
  | cons x t ih =>
    have hx := hk x (by simp)
    have := ih (fun y hy => hk y (by simp [hy]))
    simp [strchrFrom, hx.1, hx.2, this]

theorem cstrFrom_run (s rest : List Nat) (h0 : 0 ∉ s) :
    cstrFrom (s ++ 0 :: rest) = some s := by
  induction s with
  | nil => simp [cstrFrom]
  | cons c t ih =>
    have hc : c ≠ 0 := by
      intro e; apply h0; simp [e]
    have := ih (by intro e; apply h0; simp [e])
    simp [cstrFrom, hc, this]

theorem cstr_run (pre s rest : List Nat) (h0 : 0 ∉ s) :
    cstr (pre ++ s ++ 0 :: rest) pre.length = some s := by
  unfold cstr
  rw [List.append_assoc, List.drop_left, cstrFrom_run s rest h0]

/-! ## `getVars` on well-formed segments -/

theorem goodPair_key (p : List Nat × Option (List Nat)) (h : goodPair p = true) :
    p.1 ≠ [] ∧ ∀ x ∈ p.1, x ≠ 0 ∧ x ≠ 38 ∧ x ≠ 43 ∧ x ≠ 37 ∧ x ≠ 61 := by
  simp only [goodPair, Bool.and_eq_true, Bool.not_eq_true', List.isEmpty_eq_false,
    List.all_eq_true, plainByte, decide_eq_true_eq] at h
  exact ⟨h.1.1, fun x hx => by have := h.1.2 x hx; tauto⟩

theorem goodPair_value (k v : List Nat) (h : goodPair (k, some v) = true) :
    ∀ x ∈ v, x ≠ 0 ∧ x ≠ 38 ∧ x ≠ 43 ∧ x ≠ 37 := by
  simp only [goodPair, Bool.and_eq_true, Bool.not_eq_true', List.isEmpty_eq_false,
    List.all_eq_true, plainByte, decide_eq_true_eq] at h
  exact fun x hx => by have := h.2 x hx; tauto

theorem segText_plain (p : List Nat × Option (List Nat)) (h : goodPair p = true) :
    segText p ≠ [] ∧ ∀ x ∈ segText p, x ≠ 0 ∧ x ≠ 38 ∧ x ≠ 43 ∧ x ≠ 37 := by
  obtain ⟨k, v⟩ := p
  have hk := goodPair_key (k, v) h
  cases v with
  | none => exact ⟨hk.1, fun x hx => by have := hk.2 x hx; tauto⟩
  | some v =>
    have hv := goodPair_value k v h
    refine ⟨by simp [segText], fun x hx => ?_⟩
    simp only [segText, List.mem_append, List.mem_cons] at hx
    rcases hx with hx | hx | hx
    · have := hk.2 x hx; tauto
    · subst hx; decide
    · exact hv x hx

theorem segCooked_length (p : List Nat × Option (List Nat)) :
    (segCooked p).length = (segText p).length := by
  obtain ⟨k, v⟩ := p
  cases v <;> simp [segCooked, segText]

theorem set_two_uninit (kl : List Slot) (u : Nat) (a b : Slot) :
    ((kl ++ List.replicate (u + 2) Slot.uninit).set kl.length a).set (kl.length + 1) b =
      (kl ++ [a, b]) ++ List.replicate u Slot.uninit := by
  induction kl with
  | nil => simp [List.replicate_succ]
  | cons x t ih => simpa using ih

/-- One iteration of the `strtok` loop on a well-formed segment that is followed by `d`,
an `&` or the terminator. -/
theorem getVarsLoop_step (fuel : Nat) (pre : List Nat) (p : List Nat × Option (List Nat))
    (d : Nat) (rest : List Nat) (keyCount u : Nat) (kl : List Slot)
    (hp : goodPair p = true) (hd : d = 0 ∨ d = 38) (hk : kl.length + (u + 2) = keyCount * 2) :
    getVarsLoop (fuel + 1) (pre ++ segText p ++ d :: rest) pre.length keyCount kl.length
        (kl ++ List.replicate (u + 2) Slot.uninit) =
      getVarsLoop fuel (pre ++ segCooked p ++ 0 :: rest)
        (pre.length + (segText p).length + (if d = 0 then 0 else 1)) keyCount
        (kl.length + 2)
        ((kl ++ [Slot.ptr (some pre.length),
            Slot.ptr (p.2.map (fun _ => pre.length + p.1.length + 1))]) ++
          List.replicate u Slot.uninit) := by
  have hseg := segText_plain p hp
  have htok := strtok_token pre [] (segText p) d rest [38] (by simp) hseg.1
    (fun x hx => by have := hseg.2 x hx; simp; tauto)
    (by rcases hd with h | h <;> simp [h])
  simp only [List.append_nil, List.length_nil, Nat.add_zero] at htok
  have hlt : kl.length < keyCount * 2 := by omega
  obtain ⟨k, v⟩ := p
  have hkey := goodPair_key (k, v) hp
  cases v with
  | none =>
    have hchr : strchr (pre ++ k ++ 0 :: rest) pre.length 61 = some none := by
      unfold strchr
      rw [List.append_assoc, List.drop_left, strchrFrom_absent k 61 rest (by decide)
        (fun x hx => by have := hkey.2 x hx; tauto)]
      rfl
    have hdes := descape_plain pre k rest
      (fun h => by have := hkey.2 37 h; tauto) (fun h => by have := hkey.2 0 h; tauto)
    simp only [segText] at htok ⊢
    simp only [getVarsLoop, htok, hchr, hdes, hlt, if_true, segCooked, Option.map_none',
      set_two_uninit]
  | some v =>
    have hval := goodPair_value k v hp
    have hchr : strchr (pre ++ (k ++ 61 :: v) ++ 0 :: rest) pre.length 61
        = some (some (pre.length + k.length)) := by
      unfold strchr
      have : (pre ++ (k ++ 61 :: v) ++ 0 :: rest).drop pre.length
          = k ++ 61 :: (v ++ 0 :: rest) := by simp
      rw [this, strchrFrom_found k 61 (v ++ 0 :: rest)
        (fun x hx => by have := hkey.2 x hx; tauto)]
      rfl
    have hset : (pre ++ (k ++ 61 :: v) ++ 0 :: rest).set (pre.length + k.length) 0
        = pre ++ k ++ 0 :: (v ++ 0 :: rest) := by
      simp
    have hdes1 := descape_plain pre k (v ++ 0 :: rest)
      (fun h => by have := hkey.2 37 h; tauto) (fun h => by have := hkey.2 0 h; tauto)
    have hdes2 : descape (pre ++ k ++ 0 :: (v ++ 0 :: rest)) (pre.length + k.length + 1)
        = some (pre ++ k ++ 0 :: (v ++ 0 :: rest)) := by
      have := descape_plain (pre ++ k ++ [0]) v rest
        (fun h => by have := hval 37 h; tauto) (fun h => by have := hval 0 h; tauto)
      simpa using this
    simp only [segText] at htok ⊢
    simp only [getVarsLoop, htok, hchr, hset, hdes1, hdes2, hlt, if_true, segCooked,
      Option.map_some', set_two_uninit]
    simp

theorem getVarsLoop_segments :
    ∀ (segs : List (List Nat × Option (List Nat))) (fuel : Nat) (pre post : List Nat)
      (keyCount u : Nat) (kl : List Slot),
      segs ≠ [] → (∀ p ∈ segs, goodPair p = true) → segs.length < fuel →
      kl.length + (2 * segs.length + u) = keyCount * 2 →
      getVarsLoop fuel (pre ++ joinWith 38 (segs.map segText) ++ 0 :: post) pre.length
          keyCount kl.length (kl ++ List.replicate (2 * segs.length + u) Slot.uninit) =
        some (pre ++ joinWith 0 (segs.map segCooked) ++ 0 :: post,
          kl ++ allSlots pre.length segs ++ List.replicate u Slot.uninit) := by
  intro segs
  induction segs with
  | nil => intro _ _ _ _ _ _ h; exact absurd rfl h
  | cons p rest ih =>
    intro fuel pre post keyCount u kl _ hgood hfuel hk
    have hp : goodPair p = true := hgood p (by simp)
    cases rest with
    | nil =>
      obtain ⟨f, rfl⟩ : ∃ f, fuel = f + 2 := ⟨fuel - 2, by simp at hfuel; omega⟩
      have hstep := getVarsLoop_step (f + 1) pre p 0 post keyCount u kl hp (Or.inl rfl)
        (by simp at hk; omega)
      have hnone := strtok_none (pre ++ segCooked p) [] post [38] (by simp)
      simp only [List.append_nil, List.length_nil, Nat.add_zero, List.length_append,
        segCooked_length] at hnone
      have h2 : 2 * [p].length + u = u + 2 := by simp; omega
      simp only [List.map_cons, List.map_nil, joinWith, h2, hstep, if_true, Nat.add_zero]
      simp only [getVarsLoop, hnone, allSlots, List.append_nil]
    | cons q rest2 =>
      obtain ⟨f, rfl⟩ : ∃ f, fuel = f + 1 := ⟨fuel - 1, by omega⟩
      have hstep := getVarsLoop_step f pre p 38
        (joinWith 38 ((q :: rest2).map segText) ++ 0 :: post) keyCount
        (2 * (q :: rest2).length + u) kl hp (Or.inr rfl) (by simp at hk ⊢; omega)
      have hih := ih f (pre ++ segCooked p ++ [0]) post keyCount u
        (kl ++ [Slot.ptr (some pre.length),
          Slot.ptr (p.2.map (fun _ => pre.length + p.1.length + 1))])
        (by simp) (fun x hx => hgood x (by simp [hx])) (by simp at hfuel ⊢; omega)
        (by simp at hk ⊢; omega)
      have h2 : 2 * (p :: q :: rest2).length + u = 2 * (q :: rest2).length + u + 2 := by
        simp; omega
      have hjoin : pre ++ joinWith 38 ((p :: q :: rest2).map segText) ++ 0 :: post =
          pre ++ segText p ++ 38 :: (joinWith 38 ((q :: rest2).map segText) ++ 0 :: post) := by
        simp [joinWith]
      have e1 : (pre ++ segCooked p ++ [0]) ++ joinWith 38 ((q :: rest2).map segText) ++
          0 :: post =
          pre ++ segCooked p ++ 0 :: (joinWith 38 ((q :: rest2).map segText) ++ 0 :: post) := by
        simp
      have e2 : (pre ++ segCooked p ++ [0]).length = pre.length + (segText p).length + 1 := by
        simp [segCooked_length, Nat.add_assoc]
      have e3 : (kl ++ [Slot.ptr (some pre.length),
          Slot.ptr (p.2.map (fun _ => pre.length + p.1.length + 1))]).length
          = kl.length + 2 := by simp
      rw [e1, e2, e3] at hih
      rw [h2, hjoin, hstep]
      simp only [show (38 : Nat) ≠ 0 by decide, if_false]
      rw [hih]
      simp [joinWith, allSlots]

theorem getVarsScan_plain :
    ∀ (t pre rest : List Nat) (kc : Nat), (∀ x ∈ t, x ≠ 43) →
      getVarsScan t.length (pre ++ t ++ rest) pre.length kc =
        some (pre ++ t ++ rest, kc + t.count 38) := by
  intro t
  induction t with
  | nil => intro pre rest kc _; simp [getVarsScan]
  | cons c t ih =>
    intro pre rest kc h
    have hr : (pre ++ c :: (t ++ rest))[pre.length]? = some c :=
      getElem?_length_append pre c (t ++ rest)
    have hc : c ≠ 43 := h c (by simp)
    have hih := fun kc2 => ih (pre ++ [c]) rest kc2 (fun x hx => h x (by simp [hx]))
    simp only [List.length_append, List.length_cons, List.length_nil, List.append_assoc,
      List.cons_append, List.nil_append, Nat.zero_add] at hih
    simp only [List.length_cons, getVarsScan, List.append_assoc, List.cons_append, hr, hc,
      if_false]
    by_cases h38 : c = 38
    · subst h38
      simp only [if_true, hih, List.count_cons_self]
      congr 2; omega
    · simp only [h38, if_false, hih]
      rw [List.count_cons_of_ne (fun e => h38 e.symm)]

theorem joinWith_count (texts : List (List Nat)) (hne : texts ≠ [])
    (h : ∀ t ∈ texts, 38 ∉ t) : (joinWith 38 texts).count 38 + 1 = texts.length := by
  induction texts with
  | nil => exact absurd rfl hne
  | cons a rest ih =>
    cases rest with
    | nil =>
      simp only [joinWith, List.length_cons, List.length_nil]
      rw [List.count_eq_zero_of_not_mem (h a (by simp))]
    | cons b rest2 =>
      have := ih (by simp) (fun t ht => h t (by simp [ht]))
      simp only [joinWith, List.count_append, List.count_cons_self, List.length_cons] at this ⊢
      rw [List.count_eq_zero_of_not_mem (h a (by simp))]
      omega

theorem pairAt_head (pre : List Nat) (p : List Nat × Option (List Nat)) (restMem : List Nat)
    (kl tail : List Slot) (hp : goodPair p = true) :
    pairAt (pre ++ segCooked p ++ 0 :: restMem)
      (kl ++ Slot.ptr (some pre.length) ::
        Slot.ptr (p.2.map (fun _ => pre.length + p.1.length + 1)) :: tail) kl.length
      = some p := by
  obtain ⟨k, v⟩ := p
  have hkey := goodPair_key (k, v) hp
  have hk0 : 0 ∉ k := fun h => by have := hkey.2 0 h; tauto
  cases v with
  | none =>
    have h0 : (kl ++ Slot.ptr (some pre.length) :: Slot.ptr none :: tail)[kl.length]?
        = some (Slot.ptr (some pre.length)) := getElem?_length_append _ _ _
    have h1 : (kl ++ Slot.ptr (some pre.length) :: Slot.ptr none :: tail)[kl.length + 1]?
        = some (Slot.ptr none) := getElem?_length_succ_append _ _ _ _
    have hc := cstr_run pre k restMem hk0
    simp only [segCooked, Option.map_none']
    simp only [pairAt, h0, h1, hc]
  | some v =>
    have h0 : (kl ++ Slot.ptr (some pre.length) ::
        Slot.ptr (some (pre.length + k.length + 1)) :: tail)[kl.length]?
        = some (Slot.ptr (some pre.length)) := getElem?_length_append _ _ _
    have h1 : (kl ++ Slot.ptr (some pre.length) ::
        Slot.ptr (some (pre.length + k.length + 1)) :: tail)[kl.length + 1]?
        = some (Slot.ptr (some (pre.length + k.length + 1))) :=
      getElem?_length_succ_append _ _ _ _
    have hv0 : 0 ∉ v := fun h => by have := goodPair_value k v hp 0 h; tauto
    have hc1 : cstr (pre ++ (k ++ 0 :: v) ++ 0 :: restMem) pre.length = some k := by
      have := cstr_run pre k (v ++ 0 :: restMem) hk0
      simpa using this
    have hc2 : cstr (pre ++ (k ++ 0 :: v) ++ 0 :: restMem) (pre.length + k.length + 1)
        = some v := by
      have := cstr_run (pre ++ k ++ [0]) v restMem hv0
      simpa using this
    simp only [segCooked, Option.map_some']
    simp only [pairAt, h0, h1, hc1, hc2]

theorem readPairsFrom_segments :
    ∀ (segs : List (List Nat × Option (List Nat))) (pre post : List Nat)
      (kl tail : List Slot), (∀ p ∈ segs, goodPair p = true) →
      readPairsFrom (pre ++ joinWith 0 (segs.map segCooked) ++ 0 :: post)
        (kl ++ allSlots pre.length segs ++ tail) segs.length kl.length = some segs := by
  intro segs
  induction segs with
  | nil => intro _ _ _ _ _; rfl
  | cons p rest ih =>
    intro pre post kl tail hgood
    have hp : goodPair p = true := hgood p (by simp)
    have hih := ih (pre ++ segCooked p ++ [0]) post
      (kl ++ [Slot.ptr (some pre.length),
        Slot.ptr (p.2.map (fun _ => pre.length + p.1.length + 1))]) tail
      (fun x hx => hgood x (by simp [hx]))
    have e2 : (pre ++ segCooked p ++ [0]).length = pre.length + (segText p).length + 1 := by
      simp [segCooked_length, Nat.add_assoc]
    have e3 : (kl ++ [Slot.ptr (some pre.length),
        Slot.ptr (p.2.map (fun _ => pre.length + p.1.length + 1))]).length
        = kl.length + 2 := by simp
    rw [e2, e3] at hih
    cases rest with
    | nil =>
      have hhead := pairAt_head pre p post kl ([] ++ tail) hp
      simp only [List.nil_append] at hhead
      simp only [List.map_cons, List.map_nil, joinWith, allSlots, List.length_cons,
        List.length_nil, readPairsFrom, List.append_assoc, List.cons_append,
        List.nil_append] at hhead ⊢
      rw [hhead]
      rfl
    | cons q rest2 =>
      have hhead := pairAt_head pre p
        (joinWith 0 ((q :: rest2).map segCooked) ++ 0 :: post) kl
        (allSlots (pre.length + (segText p).length + 1) (q :: rest2) ++ tail) hp
      have hmem : pre ++ joinWith 0 ((p :: q :: rest2).map segCooked) ++ 0 :: post =
          pre ++ segCooked p ++ 0 :: (joinWith 0 ((q :: rest2).map segCooked) ++ 0 :: post) := by
        simp [joinWith]
      have hmem2 : pre ++ segCooked p ++ [0] ++ joinWith 0 ((q :: rest2).map segCooked) ++
          0 :: post =
          pre ++ segCooked p ++ 0 :: (joinWith 0 ((q :: rest2).map segCooked) ++ 0 :: post) := by
        simp
      have hkl : kl ++ allSlots pre.length (p :: q :: rest2) ++ tail =
          kl ++ Slot.ptr (some pre.length) ::
            Slot.ptr (p.2.map (fun _ => pre.length + p.1.length + 1)) ::
              (allSlots (pre.length + (segText p).length + 1) (q :: rest2) ++ tail) := by
        simp [allSlots]
      have hkl2 : kl ++ [Slot.ptr (some pre.length),
          Slot.ptr (p.2.map (fun _ => pre.length + p.1.length + 1))] ++
            allSlots (pre.length + (segText p).length + 1) (q :: rest2) ++ tail =
          kl ++ Slot.ptr (some pre.length) ::
            Slot.ptr (p.2.map (fun _ => pre.length + p.1.length + 1)) ::
              (allSlots (pre.length + (segText p).length + 1) (q :: rest2) ++ tail) := by
        simp
      rw [hmem2, hkl2] at hih
      rw [hmem, hkl]
      show readPairsFrom _ _ ((q :: rest2).length + 1) kl.length = _
      generalize (q :: rest2).length = n at hih ⊢
      simp only [readPairsFrom, hhead, hih, Option.map_some']

theorem mem_joinWith (sep : Nat) (texts : List (List Nat)) (x : Nat)
    (h : x ∈ joinWith sep texts) : x = sep ∨ ∃ t ∈ texts, x ∈ t := by
  induction texts with
  | nil => simp [joinWith] at h
  | cons a rest ih =>
    cases rest with
    | nil => exact Or.inr ⟨a, by simp, by simpa [joinWith] using h⟩
    | cons b rest2 =>
      simp only [joinWith, List.mem_append, List.mem_cons] at h
      rcases h with h | h | h
      · exact Or.inr ⟨a, by simp, h⟩
      · exact Or.inl h
      · rcases ih h with h | ⟨t, ht, hx⟩
        · exact Or.inl h
        · exact Or.inr ⟨t, by simp at ht ⊢; tauto, hx⟩

theorem joinWith_ne_nil (sep : Nat) (a : List Nat) (rest : List (List Nat)) (ha : a ≠ []) :
    joinWith sep (a :: rest) ≠ [] := by
  cases rest with
  | nil => simpa [joinWith] using ha
  | cons b rest2 => simp [joinWith, ha]

/-- C2: for every non-empty sequence of segments `k` or `k=v` with `k` non-empty and free
of `=`, and `k` and `v` free of `&`, `+`, `%` and NUL, `getVars` applied to the segments
joined by `&` returns their number and stores the pairs in segment order: `(k, v)` split
at the first `=`, and `(k, absent)`, a null value, for a segment without `=`. -/
theorem getVars_segments (segs : List (List Nat × Option (List Nat))) (hne : segs ≠ [])
    (hgood : ∀ p ∈ segs, goodPair p = true) :
    getVarsStr (joinWith 38 (segs.map segText)) = some (segs.length, some segs) := by
  have htexts : ∀ t ∈ segs.map segText, ∀ x ∈ t, x ≠ 0 ∧ x ≠ 38 ∧ x ≠ 43 ∧ x ≠ 37 := by
    intro t ht
    obtain ⟨p, hp, rfl⟩ := List.mem_map.mp ht
    exact (segText_plain p (hgood p hp)).2
  have hplus : ∀ x ∈ joinWith 38 (segs.map segText), x ≠ 43 := by
    intro x hx
    rcases mem_joinWith 38 _ x hx with h | ⟨t, ht, hxt⟩
    · subst h; decide
    · exact (htexts t ht x hxt).2.2.1
  have hcount := joinWith_count (segs.map segText) (by simpa using hne)
    (fun t ht h38 => (htexts t ht 38 h38).2.1 rfl)
  rw [List.length_map] at hcount
  have hpos : 0 < (joinWith 38 (segs.map segText)).length := by
    obtain ⟨p, rest, rfl⟩ : ∃ p rest, segs = p :: rest := by
      cases segs with
      | nil => exact absurd rfl hne
      | cons p rest => exact ⟨p, rest, rfl⟩
    exact List.length_pos.mpr
      (joinWith_ne_nil 38 _ _ (segText_plain p (hgood p (by simp))).1)
  have hle := List.count_le_length 38 (joinWith 38 (segs.map segText))
  have hscan := getVarsScan_plain (joinWith 38 (segs.map segText)) [] [0] 1 hplus
  have hloop := getVarsLoop_segments segs
    ((joinWith 38 (segs.map segText) ++ [0]).length + 1) [] [] segs.length 0 [] hne hgood
    (by simp; omega) (by simp; omega)
  have hread := readPairsFrom_segments segs [] [] [] (List.replicate 0 Slot.uninit) hgood
  have hn0 : segs.length ≠ 0 := by
    intro h; exact hne (List.length_eq_zero.mp h)
  have h1 : 1 + List.count 38 (joinWith 38 (segs.map segText)) = segs.length := by omega
  have h2 : segs.length * 2 = 2 * segs.length + 0 := by omega
  simp only [List.nil_append, List.length_nil] at hscan hloop hread
  simp only [getVarsStr, getVars, hpos, if_true, hscan, h1, hn0, if_false, h2, hloop,
    Option.map_some', readPairs, hread]

/-- C2 at the buffer `k1=v1&k2=v2&flag`. -/
theorem getVars_segments_witness :
    ((∀ p ∈ [(str "k1", some (str "v1")), (str "k2", some (str "v2")), (str "flag", none)],
        goodPair p = true) ∧
      joinWith 38 ([(str "k1", some (str "v1")), (str "k2", some (str "v2")),
        (str "flag", none)].map segText) = str "k1=v1&k2=v2&flag") ∧
    getVarsStr (str "k1=v1&k2=v2&flag") =
      some (3, some [(str "k1", some (str "v1")), (str "k2", some (str "v2")),
        (str "flag", none)]) :=
  ⟨⟨by decide, by decide⟩,
    getVars_segments [(str "k1", some (str "v1")), (str "k2", some (str "v2")),
      (str "flag", none)] (by simp) (by decide)⟩

/-! ## `getArgv`: the switch string is split into arguments -/

theorem runs_nil : runs [] = [] := by
  simp [runs, List.splitOnP_nil]

theorem runs_seps_append (ds r : List Nat) (h : ∀ x ∈ ds, isSep x = true) :
    runs (ds ++ r) = runs r := by
  induction ds with
  | nil => rfl
  | cons c t ih =>
    have hc := h c (by simp)
    have := ih (fun x hx => h x (by simp [hx]))
    simp only [runs, List.cons_append, List.splitOnP_cons, hc, if_true] at this ⊢
    simpa using this

theorem runs_token (tok : List Nat) (hne : tok ≠ []) (h : ∀ x ∈ tok, isSep x = false) :
    runs tok = [tok] := by
  have hsingle : tok.splitOnP isSep = [tok] :=
    List.splitOnP_eq_single isSep tok (fun x hx => by simp [h x hx])
  simp [runs, hsingle, hne]

theorem runs_token_sep (tok : List Nat) (c : Nat) (after : List Nat) (hne : tok ≠ [])
    (h : ∀ x ∈ tok, isSep x = false) (hc : isSep c = true) :
    runs (tok ++ c :: after) = tok :: runs after := by
  have hfirst : (tok ++ c :: after).splitOnP isSep = tok :: after.splitOnP isSep :=
    List.splitOnP_first isSep tok (fun x hx => by simp [h x hx]) c hc after
  simp [runs, hfirst, hne]

theorem span_split (P : Nat → Bool) (r : List Nat) :
    ∃ a b, r = a ++ b ∧ (∀ x ∈ a, P x = true) ∧
      (b = [] ∨ ∃ c b2, b = c :: b2 ∧ P c = false) := by
  induction r with
  | nil => exact ⟨[], [], rfl, by simp, Or.inl rfl⟩
  | cons c t ih =>
    by_cases hc : P c = true
    · obtain ⟨a, b, hab, ha, hb⟩ := ih
      exact ⟨c :: a, b, by simp [hab], by
        intro x hx
        rcases List.mem_cons.mp hx with h | h
        · subst h; exact hc
        · exact ha x h, hb⟩
    · exact ⟨[], c :: t, rfl, by simp, Or.inr ⟨c, t, rfl, by simpa using hc⟩⟩

theorem isSep_iff (x : Nat) : isSep x = true ↔ x ∈ [32, 9, 10] := by
  simp [isSep, or_assoc]

theorem getArgvLoop_tokens (n : Nat) :
    ∀ (r pre tail : List Nat) (fuel i : Nat) (al : List (Option Nat)),
      r.length ≤ n → 0 ∉ r → 64 ≤ fuel + i → i ≤ 63 → al.length = 64 →
      ∃ m1 next saved m2 al2,
        strtok (pre ++ r ++ 0 :: tail) pre.length [32, 9, 10] = some (m1, next, saved) ∧
        getArgvLoop fuel m1 next saved i al =
          some (m2, i + min (runs r).length (63 - i), al2) ∧
        (∃ x, m2 = pre ++ x) ∧ al2.length = 64 ∧ (∀ j, j < i → al2[j]? = al[j]?) ∧
        readArgs m2 al2 (min (runs r).length (63 - i)) i = some ((runs r).take (63 - i)) := by
  induction n with
  | zero =>
    intro r pre tail fuel i al hn _ hfuel hi hal
    have hr : r = [] := List.length_eq_zero.mp (by omega)
    subst hr
    obtain ⟨f, rfl⟩ : ∃ f, fuel = f + 1 := ⟨fuel - 1, by omega⟩
    have hnone := strtok_none pre [] tail [32, 9, 10] (by simp)
    simp only [List.append_nil, List.length_nil, Nat.add_zero] at hnone ⊢
    refine ⟨_, _, _, pre ++ 0 :: tail, al, hnone, ?_, ⟨0 :: tail, rfl⟩, hal,
      fun _ _ => rfl, ?_⟩
    · simp [getArgvLoop, runs_nil]
    · simp [runs_nil, readArgs]
  | succ n ih =>
    intro r pre tail fuel i al hn h0 hfuel hi hal
    obtain ⟨f, rfl⟩ : ∃ f, fuel = f + 1 := ⟨fuel - 1, by omega⟩
    obtain ⟨ds, r1, rfl, hds, hr1⟩ := span_split isSep r
    have hds2 : ∀ x ∈ ds, x ≠ 0 ∧ x ∈ [32, 9, 10] := fun x hx =>
      ⟨fun e => h0 (by simp [← e, hx]), (isSep_iff x).mp (hds x hx)⟩
    rw [runs_seps_append ds r1 hds]
    rcases hr1 with rfl | ⟨c, r2, rfl, hc⟩
    · -- only separators are left
      have hnone := strtok_none pre ds tail [32, 9, 10] hds2
      simp only [List.append_nil] at hnone ⊢
      refine ⟨_, _, _, pre ++ ds ++ 0 :: tail, al, hnone, ?_, ⟨ds ++ 0 :: tail, by simp⟩, hal,
        fun _ _ => rfl, ?_⟩
      · simp [getArgvLoop, runs_nil]
      · simp [runs_nil, readArgs]
    · -- a token starts at `c`
      obtain ⟨tk, after, hsplit, htk, hafter⟩ := span_split (fun x => !isSep x) r2
      subst hsplit
      have htok : ∀ x ∈ c :: tk, isSep x = false := by
        intro x hx
        rcases List.mem_cons.mp hx with h | h
        · subst h; exact hc
        · simpa using htk x h
      have htok2 : ∀ x ∈ c :: tk, x ≠ 0 ∧ x ∉ [32, 9, 10] := fun x hx =>
        ⟨fun e => h0 (by
          rw [e] at hx
          simp only [List.mem_append, List.mem_cons] at hx ⊢
          tauto),
         fun hm => by
          have := (isSep_iff x).mpr hm
          rw [htok x hx] at this; cases this⟩
      have htk0 : 0 ∉ c :: tk := fun h => (htok2 0 h).1 rfl
      rcases hafter with rfl | ⟨c2, after2, rfl, hc2⟩
      · -- the token ends the string
        have ht := strtok_token pre ds (c :: tk) 0 tail [32, 9, 10] hds2 (by simp) htok2
          (Or.inl rfl)
        have hnone := strtok_none (pre ++ ds ++ (c :: tk)) [] tail [32, 9, 10] (by simp)
        simp only [List.append_nil, List.length_nil, Nat.add_zero, List.length_append,
          if_true] at ht hnone
        have hmem : pre ++ (ds ++ c :: (tk ++ [])) ++ 0 :: tail =
            pre ++ ds ++ (c :: tk) ++ 0 :: tail := by simp
        have hrun : runs (c :: (tk ++ [])) = [c :: tk] := by
          rw [List.append_nil]; exact runs_token (c :: tk) (by simp) htok
        rw [hmem, hrun]
        by_cases hlt : i < 63
        · obtain ⟨f2, rfl⟩ : ∃ f2, f = f2 + 1 := ⟨f - 1, by omega⟩
          have hmin : min [c :: tk].length (63 - i) = 1 := by
            simp; omega
          have hcs := cstr_run (pre ++ ds) (c :: tk) tail htk0
          simp only [List.length_append] at hcs
          have hget : (al.set i (some (pre.length + ds.length))).getD i none
              = some (pre.length + ds.length) := by
            rw [List.getD_eq_getElem?_getD, List.getElem?_set_self (by omega)]
            rfl
          have htake : List.take (63 - i) [c :: tk] = [c :: tk] := by
            rw [List.take_of_length_le (by simp; omega)]
          refine ⟨_, _, _, pre ++ ds ++ (c :: tk) ++ 0 :: tail,
            al.set i (some (pre.length + ds.length)), ht, ?_,
            ⟨ds ++ (c :: tk) ++ 0 :: tail, by simp⟩, by simpa using hal,
            fun j hj => by rw [List.getElem?_set_ne (by omega)], ?_⟩
          · simp only [getArgvLoop, MAX_ARGV, hlt, if_true, hnone, hmin]
          · rw [hmin, htake]
            simp only [readArgs, hget, Option.some_bind, hcs, Option.map_some']
        · have hi63 : i = 63 := by omega
          subst hi63
          refine ⟨_, _, _, pre ++ ds ++ (c :: tk) ++ 0 :: tail, al, ht, ?_,
            ⟨ds ++ (c :: tk) ++ 0 :: tail, by simp⟩, hal, fun _ _ => rfl, ?_⟩
          · simp [getArgvLoop, MAX_ARGV]
          · simp [readArgs]
      · -- the token is followed by a separator
        have hc2s : isSep c2 = true := by simpa using hc2
        have ht := strtok_token pre ds (c :: tk) c2 (after2 ++ 0 :: tail) [32, 9, 10] hds2
          (by simp) htok2 (Or.inr ((isSep_iff c2).mp hc2s))
        have hc20 : c2 ≠ 0 := by
          intro e; rw [e] at hc2s; simp [isSep] at hc2s
        simp only [hc20, if_false] at ht
        have hmem : pre ++ (ds ++ c :: (tk ++ c2 :: after2)) ++ 0 :: tail =
            pre ++ ds ++ (c :: tk) ++ c2 :: (after2 ++ 0 :: tail) := by simp
        have hrun : runs (c :: (tk ++ c2 :: after2)) = (c :: tk) :: runs after2 :=
          runs_token_sep (c :: tk) c2 after2 (by simp) htok hc2s
        rw [hmem, hrun]
        by_cases hlt : i < 63
        · have h0a : 0 ∉ after2 := fun h => h0 (by simp [h])
          obtain ⟨m1, next, saved, m2, al2, hst, hloop, ⟨x, hx⟩, hlen, hpres, hread⟩ :=
            ih after2 (pre ++ ds ++ (c :: tk) ++ [0]) tail f (i + 1)
              (al.set i (some (pre.length + ds.length)))
              (by simp at hn; omega) h0a (by omega) (by omega) (by simpa using hal)
          have e1 : pre ++ ds ++ (c :: tk) ++ [0] ++ after2 ++ 0 :: tail =
              pre ++ ds ++ (c :: tk) ++ 0 :: (after2 ++ 0 :: tail) := by simp
          have e2 : (pre ++ ds ++ (c :: tk) ++ [0]).length =
              pre.length + ds.length + (c :: tk).length + 1 := by
            simp only [List.length_append, List.length_cons, List.length_nil]
          rw [e1, e2] at hst
          have hmin : min ((c :: tk) :: runs after2).length (63 - i)
              = min (runs after2).length (63 - (i + 1)) + 1 := by
            simp; omega
          have hidx : i + (min (runs after2).length (63 - (i + 1)) + 1)
              = i + 1 + min (runs after2).length (63 - (i + 1)) := by omega
          have hget : al2.getD i none = some (pre.length + ds.length) := by
            rw [List.getD_eq_getElem?_getD, hpres i (by omega),
              List.getElem?_set_self (by omega)]
            rfl
          have hcs : cstr m2 (pre.length + ds.length) = some (c :: tk) := by
            rw [hx]
            have := cstr_run (pre ++ ds) (c :: tk) x htk0
            simpa using this
          have htake : List.take (63 - i) ((c :: tk) :: runs after2)
              = (c :: tk) :: List.take (63 - (i + 1)) (runs after2) := by
            obtain ⟨k, hk⟩ : ∃ k, 63 - i = k + 1 := ⟨62 - i, by omega⟩
            have hk2 : 63 - (i + 1) = k := by omega
            rw [hk, hk2, List.take_succ_cons]
          refine ⟨_, _, _, m2, al2, ht, ?_, ⟨ds ++ (c :: tk) ++ [0] ++ x, by
            rw [hx]; simp⟩, hlen,
            fun j hj => by
              rw [hpres j (by omega), List.getElem?_set_ne (by omega)], ?_⟩
          · simp only [getArgvLoop, MAX_ARGV, hlt, if_true, hst, hmin, hidx, hloop]
          · rw [hmin, htake]
            simp only [readArgs, hget, Option.some_bind, hcs, hread, Option.map_some']
        · have hi63 : i = 63 := by omega
          subst hi63
          refine ⟨_, _, _, pre ++ ds ++ (c :: tk) ++ 0 :: (after2 ++ 0 :: tail), al, ht, ?_,
            ⟨ds ++ (c :: tk) ++ 0 :: (after2 ++ 0 :: tail), by simp⟩, hal,
            fun _ _ => rfl, ?_⟩
          · simp [getArgvLoop, MAX_ARGV]
          · simp [readArgs]

theorem cstrFrom_eq_some :
    ∀ (l d : List Nat), cstrFrom l = some d → ∃ tail, l = d ++ 0 :: tail ∧ 0 ∉ d := by
  intro l
  induction l with
  | nil => intro d h; simp [cstrFrom] at h
  | cons c t ih =>
    intro d h
    by_cases hc : c = 0
    · subst hc
      simp only [cstrFrom, if_true, Option.some.injEq] at h
      subst h
      exact ⟨t, rfl, by simp⟩
    · simp only [cstrFrom, hc, if_false, Option.map_eq_some'] at h
      obtain ⟨d2, hd2, rfl⟩ := h
      obtain ⟨tail, rfl, h0⟩ := ih d2 hd2
      refine ⟨tail, rfl, ?_⟩
      intro hm
      rcases List.mem_cons.mp hm with h | h
      · exact hc h.symm
      · exact h0 h

theorem strncpy_cstr :
    ∀ (s : List Nat) (n : Nat) (tail : List Nat), 0 ∉ s → s.length ≤ n →
      strncpy n (s ++ 0 :: tail) = some (s ++ List.replicate (n - s.length) 0) := by
  intro s
  induction s with
  | nil =>
    intro n tail _ _
    cases n with
    | zero => rfl
    | succ n => simp [strncpy]
  | cons c t ih =>
    intro n tail h0 hn
    obtain ⟨k, rfl⟩ : ∃ k, n = k + 1 := ⟨n - 1, by simp at hn; omega⟩
    have hc : c ≠ 0 := fun e => h0 (by simp [e])
    have := ih k tail (fun h => h0 (by simp [h])) (by simp at hn; omega)
    simp [strncpy, hc, this]

theorem descapeLoop_frame (f : Nat) :
    ∀ (m : Mem) (src dest : Nat) (r : Mem), descapeLoop f m src dest = some r →
      dest ≤ src → ∀ (extra : List Nat) (f2 : Nat), f ≤ f2 →
      descapeLoop f2 (m ++ extra) src dest = some (r ++ extra) := by
  induction f with
  | zero => intro m src dest r h; simp [descapeLoop] at h
  | succ f ih =>
    intro m src dest r h hle extra f2 hf
    obtain ⟨g, rfl⟩ : ∃ g, f2 = g + 1 := ⟨f2 - 1, by omega⟩
    cases hr : m[src]? with
    | none => simp [descapeLoop, hr] at h
    | some c =>
      have hlt : src < m.length := by
        by_contra hn
        rw [List.getElem?_eq_none (by omega)] at hr
        cases hr
      have hr2 : (m ++ extra)[src]? = some c := by
        rw [List.getElem?_append_left hlt]; exact hr
      have hset : ∀ v, (m ++ extra).set dest v = m.set dest v ++ extra := fun v =>
        List.set_append_left _ _ (by omega)
      by_cases hc0 : c = 0
      · subst hc0
        simp only [descapeLoop, hr, if_true, Option.some.injEq] at h
        subst h
        simp only [descapeLoop, hr2, if_true, hset]
      · by_cases hc : c = 37
        · subst hc
          cases ha : m[src + 1]? with
          | none => simp [descapeLoop, hr, ha] at h
          | some a =>
            cases hb : m[src + 2]? with
            | none => simp [descapeLoop, hr, ha, hb] at h
            | some b =>
              have hb1 : src + 2 < m.length := by
                by_contra hn
                rw [List.getElem?_eq_none (by omega)] at hb
                cases hb
              have ha2 : (m ++ extra)[src + 1]? = some a := by
                rw [List.getElem?_append_left (by omega)]; exact ha
              have hb2 : (m ++ extra)[src + 2]? = some b := by
                rw [List.getElem?_append_left hb1]; exact hb
              simp only [descapeLoop, hr, ha, hb, hc0, if_false, if_true] at h
              have := ih _ _ _ _ h (by omega) extra g (by omega)
              simp only [descapeLoop, hr2, ha2, hb2, hc0, if_false, if_true, hset, this]
        · simp only [descapeLoop, hr, hc0, hc, if_false] at h
          have := ih _ _ _ _ h (by omega) extra g (by omega)
          simp only [descapeLoop, hr2, hc0, hc, if_false, hset, this]

/-- The vector that `getArgv` builds from a switch string `s` shorter than 1023 bytes on
which `descape` stays inside the string and leaves `d`: `argv[0]`, then pointers to the
first 62 of the maximal runs of bytes of `d` other than space, tab and newline, which
stand in `sbuf` on return.  Without a switch string the original vector is returned. -/
theorem getArgv_tokens (w : World) (g g1 : Globals) (sw : Option (List Nat))
    (hsw : getArgvSwitches w g = some (g1, sw)) :
    (sw = none → getArgv w g = some (0, g1, 1 + w.args.length, w.argv0 :: w.args)) ∧
    (∀ src s d, sw = some src → cstrFrom src = some s → s.length < 1023 →
      descapeStr s = some d →
      getArgv w g =
        some (0, g1, 1 + min (runs d).length 62,
          w.argv0 :: reread w.sbufReuse 1 ((runs d).take 62))) := by
  constructor
  · intro h
    subst h
    simp [getArgv, hsw, getArgvBuild]
  · intro src s d h hs hlen hd
    subst h
    obtain ⟨tail, rfl, h0⟩ := cstrFrom_eq_some src s hs
    have hcopy := strncpy_cstr s (1024 - 1) tail h0 (by omega)
    obtain ⟨m1, hm1, hcs⟩ : ∃ m1, descape (s ++ [0]) 0 = some m1 ∧ cstr m1 0 = some d := by
      simp only [descapeStr, Option.bind_eq_some] at hd
      exact hd
    obtain ⟨tl, hm1eq, hd0⟩ := cstrFrom_eq_some (m1.drop 0) d hcs
    rw [List.drop_zero] at hm1eq
    subst hm1eq
    have hsbuf : s ++ List.replicate (1024 - 1 - s.length) 0 ++ [w.junk] =
        (s ++ [0]) ++ (List.replicate (1022 - s.length) 0 ++ [w.junk]) := by
      have : 1024 - 1 - s.length = (1022 - s.length) + 1 := by omega
      rw [this, List.replicate_succ]
      simp
    have hdes : descape (s ++ List.replicate (1024 - 1 - s.length) 0 ++ [w.junk]) 0 =
        some (d ++ 0 :: (tl ++ (List.replicate (1022 - s.length) 0 ++ [w.junk]))) := by
      rw [hsbuf]
      unfold descape at hm1 ⊢
      rw [descapeLoop_frame _ _ _ _ _ hm1 (Nat.le_refl _) _ _ (by simp)]
      simp
    obtain ⟨ma, next, saved, m2, al2, hst, hloop, _, _, _, hread⟩ :=
      getArgvLoop_tokens d.length d [] (tl ++ (List.replicate (1022 - s.length) 0 ++ [w.junk]))
        64 1 (List.replicate 64 none) (Nat.le_refl _) hd0 (by omega) (by omega) (by simp)
    simp only [List.nil_append, List.length_nil] at hst
    have h62 : 63 - 1 = 62 := rfl
    rw [h62] at hloop hread
    simp only [getArgv, hsw, getArgvBuild, hcopy, hdes, hst, MAX_ARGV, hloop,
      Nat.add_sub_cancel_left, hread]

theorem readArgs_length (sbuf : Mem) (al : List (Option Nat)) :
    ∀ (n j : Nat) (toks : List (List Nat)), readArgs sbuf al n j = some toks →
      toks.length = n := by
  intro n
  induction n with
  | zero =>
    intro j toks h
    simp only [readArgs, Option.some.injEq] at h
    rw [← h]; rfl
  | succ n ih =>
    intro j toks h
    rw [readArgs] at h
    split at h
    · cases h
    · simp only [Option.map_eq_some'] at h
      obtain ⟨rest, hrest, rfl⟩ := h
      simp [ih _ _ hrest]

theorem reread_length (f : Nat → List Nat → List Nat) :
    ∀ (toks : List (List Nat)) (i : Nat), (reread f i toks).length = toks.length := by
  intro toks
  induction toks with
  | nil => intro i; rfl
  | cons t ts ih => intro i; simp [reread, ih]

theorem getArgvLoop_le :
    ∀ (fuel : Nat) (sbuf : Mem) (next : Option Nat) (saved i : Nat) (al : List (Option Nat))
      (r : Mem × Nat × List (Option Nat)),
      getArgvLoop fuel sbuf next saved i al = some r → i ≤ r.2.1 := by
  intro fuel
  induction fuel with
  | zero => intro sbuf next saved i al r h; simp [getArgvLoop] at h
  | succ fuel ih =>
    intro sbuf next saved i al r h
    unfold getArgvLoop at h
    split at h
    · simp only [Option.some.injEq] at h
      rw [← h]
    · split at h
      · split at h
        · cases h
        · have := ih _ _ _ _ _ _ h
          omega
      · simp only [Option.some.injEq] at h
        rw [← h]

/-- Whenever `getArgv` returns, it returns 0, and `*pargc` is the number of strings of
`*pargv`, the first of which is the original `argv[0]`. -/
theorem getArgv_shape (w : World) (g0 g : Globals) (ret : Int) (argc : Nat)
    (argv : List (List Nat)) (h : getArgv w g0 = some (ret, g, argc, argv)) :
    ret = 0 ∧ argc = argv.length ∧ argv = w.argv0 :: argv.tail := by
  unfold getArgv at h
  split at h
  · cases h
  · rename_i gs sw hsw
    split at h
    · cases h
    · rename_i argc2 argv2 hb
      simp only [Option.some.injEq, Prod.mk.injEq] at h
      obtain ⟨hr, _, hc, hv⟩ := h
      subst hr hc hv
      refine ⟨rfl, ?_⟩
      unfold getArgvBuild at hb
      split at hb
      · split at hb
        · cases hb
        · split at hb
          · cases hb
          · split at hb
            · cases hb
            · split at hb
              · cases hb
              · rename_i sbuf2 i al hloop
                split at hb
                · cases hb
                · rename_i toks hread
                  simp only [Option.some.injEq, Prod.mk.injEq] at hb
                  obtain ⟨hi, hv⟩ := hb
                  subst hi hv
                  have h1 := getArgvLoop_le _ _ _ _ _ _ _ hloop
                  have h2 := readArgs_length _ _ _ _ _ hread
                  simp only at h1
                  refine ⟨?_, rfl⟩
                  simp only [List.length_cons, reread_length, h2]
                  omega
      · simp only [Option.some.injEq, Prod.mk.injEq] at hb
        obtain ⟨hi, hv⟩ := hb
        subst hi hv
        exact ⟨by simp; omega, rfl⟩

/-! ## Evaluations of the code at concrete inputs -/

/-- C1, evaluated at `%2F` and `%2f`: `hex2Char` maps the letters `A`-`F` and `a`-`f` to
0-5 instead of 10-15, so `descape` decodes both strings to the byte 0x25 (`%`), not to
0x2F (`/`); an escape made of decimal digits, such as `%20`, is decoded to its value. -/
theorem descape_hex_letters :
    descapeStr (str "%2F") = some [0x25] ∧ descapeStr (str "%2f") = some [0x25] ∧
    hex2Char 50 70 = 0x25 ∧ hex2Char 65 65 = 0 ∧ descapeStr (str "%20") = some [0x20] := by
  decide

set_option maxRecDepth 1000000 in
/-- C4, evaluated at the switch string `%2Da` in the environment: it has 4 bytes, and its
percent-decoding is `-a`, since `%2D` stands for the byte 0x2D; the claimed vector is
`argv[0]`, `-a`.  `getArgv` returns `argv[0]`, `#a`: `hex2Char` turns `2D` into 0x23.  For
`-a -e -q`, which has no escape, it returns the claimed vector, and without a switch
string the original one. -/
theorem getArgv_hex_escape :
    argvOf (World.simple [] [(str "HTTP_SWITCHES", str "%2Da")] []) =
      some (2, [str "cgiProgram", str "#a"]) ∧
    (str "%2Da").length < 1023 ∧
    str "cgiProgram" :: (runs (hexDecode (str "%2Da"))).take 62 =
      [str "cgiProgram", str "-a"] ∧
    argvOf (World.simple [] [(str "HTTP_SWITCHES", str "-a -e -q")] []) =
      some (4, [str "cgiProgram", str "-a", str "-e", str "-q"]) ∧
    argvOf (World.simple [str "-q"] [] []) = some (2, [str "cgiProgram", str "-q"]) := by
  decide

set_option maxRecDepth 1000000 in
/-- C3, evaluated on the query string `x=1&HTTP_SWITCHES=-a` with `HTTP_SWITCHES=-e` in
the environment: `getVars` stores the pair `(HTTP_SWITCHES, -a)` second, the search loop
of `getArgv` stops at `i < numQueryKeys` and never looks at it, and the switch string is
taken from the environment.  The same pair in first position is found. -/
theorem getArgv_misses_second_pair :
    (getArgvSwitches (World.query "x=1&HTTP_SWITCHES=-a" "-e")
        (startState (World.query "x=1&HTTP_SWITCHES=-a" "-e"))).map
      (fun r => (readPairs r.1.queryBuf r.1.queryKeys r.1.numQueryKeys, r.2.bind cstrFrom)) =
      some (some [(str "x", some (str "1")), (str "HTTP_SWITCHES", some (str "-a"))],
        some (str "-e")) ∧
    argvOf (World.query "x=1&HTTP_SWITCHES=-a" "-e") = some (2, [str "cgiProgram", str "-e"]) ∧
    argvOf (World.query "HTTP_SWITCHES=-a&x=1" "-e") =
      some (2, [str "cgiProgram", str "-a"]) := by
  refine ⟨?_, ?_, ?_⟩
  · rfl
  · decide
  · decide

/-- C5, evaluated on the buffer `a&&b`: `getVars` returns 3 but `strtok` yields only the
two tokens `a` and `b`, so the last two of the six entries are never written and the
loop of `printQuery` over `3 * 2` entries reads them. -/
theorem getVars_empty_segment :
    getVars [] (str "a&&b" ++ [0]) 4 =
      some (3, [Slot.ptr (some 0), Slot.ptr none, Slot.ptr (some 3), Slot.ptr none,
        Slot.uninit, Slot.uninit], [97, 0, 38, 98, 0]) ∧
    getVarsStr (str "a&&b") = some (3, none) := by
  decide

/-- C6, evaluated on a body of declared length 5 whose reads return `abc`, then -1, then
`xyz`: the -1 is stored in the unsigned `bytes`, the test `bytes < 0` fails, `len` goes
from 3 to 2, and `getPostData` returns 0 with the buffer `abxyz`, length 5 and no error
recorded. -/
theorem getPostData_negative_read :
    (getPostData (World.post [] "5" "text/plain"
        [ReadEvent.data (str "abc"), ReadEvent.fail, ReadEvent.data (str "xyz")])
      Globals.init).map
      (fun r => (r.1, r.2.postBuf.bind (fun m => cstr m 0), r.2.postBufLen, r.2.hasError,
        r.2.errLog)) =
      some (0, some (str "abxyz"), 5, 0, []) := by
  decide

/-- C10, refuted at `a+b%20c`: `descape` yields `a+b c`, the `+` is kept. -/
theorem descape_keeps_plus :
    descapeStr (str "a+b%20c") = some (str "a+b c") ∧
    descapeStr (str "a+b%20c") ≠ some (str "a b c") := by
  decide

/-! ## `descape` keeps `+`; the first loop of `getVars` replaces it -/

theorem getVarsScan_spec :
    ∀ (t pre rest : List Nat) (kc : Nat),
      getVarsScan t.length (pre ++ t ++ rest) pre.length kc =
        some (pre ++ t.map plusToSpace ++ rest, kc + t.count 38) := by
  intro t
  induction t with
  | nil => intro pre rest kc; simp [getVarsScan]
  | cons c t ih =>
    intro pre rest kc
    have hr : (pre ++ c :: (t ++ rest))[pre.length]? = some c :=
      getElem?_length_append pre c (t ++ rest)
    have hih := fun (x kc2 : Nat) => ih (pre ++ [x]) rest kc2
    simp only [List.length_append, List.length_cons, List.length_nil, List.append_assoc,
      List.cons_append, List.nil_append, Nat.zero_add] at hih
    simp only [List.length_cons, getVarsScan, List.append_assoc, List.cons_append, hr,
      List.map_cons]
    by_cases h43 : c = 43
    · subst h43
      simp only [if_true, set_length_append, hih, plusToSpace]
      rw [List.count_cons_of_ne (by decide)]
    · by_cases h38 : c = 38
      · subst h38
        simp only [h43, if_false, if_true, hih, List.count_cons_self, plusToSpace]
        congr 2; omega
      · simp only [h43, h38, if_false, hih, plusToSpace]
        rw [List.count_cons_of_ne (fun e => h38 e.symm)]

theorem hex2Char_digits (a b : Nat) (ha : isDigit a = true) (hb : isDigit b = true) :
    hex2Char a b = 16 * (a - 48) + (b - 48) := by
  simp only [isDigit, Bool.and_eq_true, decide_eq_true_eq] at ha hb
  obtain ⟨ha1, ha2⟩ := ha
  obtain ⟨hb1, hb2⟩ := hb
  interval_cases a <;> interval_cases b <;> rfl

theorem hexVal_digit (a : Nat) (ha : isDigit a = true) : hexVal a = a - 48 := by
  simp only [isDigit, Bool.and_eq_true, decide_eq_true_eq] at ha
  simp [hexVal, ha]

theorem digitEscaped_cons_ne {c : Nat} {s : List Nat} (h : c ≠ 37) :
    digitEscaped (c :: s) = digitEscaped s := by
  rcases s with _ | ⟨a, _ | ⟨b, t⟩⟩ <;> simp [digitEscaped, h]

theorem hexDecode_cons_ne {c : Nat} {s : List Nat} (h : c ≠ 37) :
    hexDecode (c :: s) = c :: hexDecode s := by
  rcases s with _ | ⟨a, _ | ⟨b, t⟩⟩ <;> simp [hexDecode, h]

theorem escapesOnly_cons_ne {c : Nat} {s out : List Nat} (h : c ≠ 37) :
    escapesOnly (c :: s) (c :: out) = escapesOnly s out := by
  rcases s with _ | ⟨a, _ | ⟨b, t⟩⟩ <;> simp [escapesOnly, h]

theorem escapesOnly_pctDecode :
    ∀ (n : Nat) (s : List Nat), s.length ≤ n → wellEscaped s = true →
      escapesOnly s (pctDecode s) = true := by
  intro n
  induction n with
  | zero =>
    intro s hn _
    have : s = [] := List.length_eq_zero.mp (by omega)
    subst this
    rfl
  | succ n ih =>
    intro s hn hw
    match s, hn, hw with
    | [], _, _ => rfl
    | c :: rest, hn, hw =>
      by_cases hc : c = 37
      · subst hc
        match rest, hn, hw with
        | [], _, hw => simp [wellEscaped] at hw
        | [_], _, hw => simp [wellEscaped] at hw
        | a :: b :: rest2, hn, hw =>
          have hw2 : wellEscaped rest2 = true := by
            simp [wellEscaped] at hw; exact hw.2
          have := ih rest2 (by simp at hn; omega) hw2
          rw [pctDecode_escape]
          simp only [escapesOnly, if_true, this, Bool.and_true, Bool.or_eq_true,
            Bool.not_eq_true', decide_eq_true_eq]
          by_cases hd : (isDigit a && isDigit b) = true
          · right
            simp only [Bool.and_eq_true] at hd
            exact hex2Char_digits a b hd.1 hd.2
          · left
            simpa using hd
      · have hw1 : wellEscaped rest = true := by
          rw [wellEscaped_cons_ne hc] at hw; exact hw
        have := ih rest (by simp at hn; omega) hw1
        rw [pctDecode_cons_ne hc, escapesOnly_cons_ne hc, this]

theorem pctDecode_eq_hexDecode :
    ∀ (n : Nat) (s : List Nat), s.length ≤ n → digitEscaped s = true →
      pctDecode s = hexDecode s := by
  intro n
  induction n with
  | zero =>
    intro s hn _
    have : s = [] := List.length_eq_zero.mp (by omega)
    subst this
    rfl
  | succ n ih =>
    intro s hn hw
    match s, hn, hw with
    | [], _, _ => rfl
    | c :: rest, hn, hw =>
      by_cases hc : c = 37
      · subst hc
        match rest, hn, hw with
        | [], _, hw => simp [digitEscaped] at hw
        | [_], _, hw => simp [digitEscaped] at hw
        | a :: b :: rest2, hn, hw =>
          simp only [digitEscaped, if_true, Bool.and_eq_true] at hw
          have := ih rest2 (by simp at hn; omega) hw.2
          rw [pctDecode_escape, this, hex2Char_digits a b hw.1.1 hw.1.2]
          simp [hexDecode, hexVal_digit a hw.1.1, hexVal_digit b hw.1.2]
      · have hw1 : digitEscaped rest = true := by
          rw [digitEscaped_cons_ne hc] at hw; exact hw
        have := ih rest (by simp at hn; omega) hw1
        rw [pctDecode_cons_ne hc, this, hexDecode_cons_ne hc]

/-- C10 as amended: for every NUL-free string `s` in which each `%` is followed by two
hexadecimal digits, `descape` leaves, in place, a string `out` that is `s` with each `%XY`
replaced by one byte, the byte of value `XY` when `X` and `Y` are decimal digits, and
with every other byte, `+` included, unchanged: no `+` is replaced by a space.  When all
escapes are made of decimal digits, `out` is `s` with its escapes decoded.  The
replacement of `+` by a space is made by the first loop of `getVars`, over the whole
buffer: `getVars` applied to `a+b%20c` stores the single key `a b c`. -/
theorem descape_decodes_keeps_plus (s : List Nat) (h0 : 0 ∉ s) (hw : wellEscaped s = true) :
    (∃ out, descape (s ++ [0]) 0 = some (out ++ 0 :: (s ++ [0]).drop (out.length + 1)) ∧
      escapesOnly s out = true) ∧
    (digitEscaped s = true →
      descape (s ++ [0]) 0 =
        some (hexDecode s ++ 0 :: (s ++ [0]).drop ((hexDecode s).length + 1))) ∧
    (∀ (t rest : List Nat) (kc : Nat),
      getVarsScan t.length (t ++ rest) 0 kc =
        some (t.map plusToSpace ++ rest, kc + t.count 38)) ∧
    getVarsStr (str "a+b%20c") = some (1, some [(str "a b c", none)]) := by
  have hdes : descape (s ++ [0]) 0 =
      some (pctDecode s ++ 0 :: (s ++ [0]).drop ((pctDecode s).length + 1)) := by
    have := descape_decode [] s [] hw h0
    simpa using this
  refine ⟨⟨pctDecode s, hdes, escapesOnly_pctDecode s.length s (Nat.le_refl _) hw⟩, ?_,
    fun t rest kc => ?_, by decide⟩
  · intro hd
    rw [hdes, pctDecode_eq_hexDecode s.length s (Nat.le_refl _) hd]
  · have := getVarsScan_spec t [] rest kc
    simpa using this

/-- C10 as amended, at the string `a+b%20c`. -/
theorem descape_decodes_keeps_plus_witness :
    (0 ∉ str "a+b%20c" ∧ wellEscaped (str "a+b%20c") = true ∧
      digitEscaped (str "a+b%20c") = true) ∧
    descape (str "a+b%20c" ++ [0]) 0 = some (str "a+b c" ++ [0, 99, 0]) :=
  ⟨⟨by decide, by decide, by decide⟩,
    (descape_decodes_keeps_plus (str "a+b%20c") (by decide) (by decide)).2.1 (by decide)⟩

/-! ## Switch parsing and the usage error -/

theorem parseSwitch_plain (argv : List (List Nat)) (argc c : Nat) (cp : List Nat) (i : Nat)
    (g : Globals) (err : Nat) (hc : c = 97 ∨ c = 101 ∨ c = 110 ∨ c = 112 ∨ c = 113) :
    ∃ g2, parseSwitch argv argc (c :: cp) i g err = parseSwitch argv argc cp i g2 err ∧
      SameErr g g2 := by
  rcases hc with rfl | rfl | rfl | rfl | rfl <;> exact ⟨_, rfl, rfl, rfl, rfl⟩

theorem parseSwitch_value (argv : List (List Nat)) (argc c : Nat) (cp : List Nat) (i : Nat)
    (g : Globals) (err : Nat) (hc : c = 98 ∨ c = 104 ∨ c = 108 ∨ c = 115 ∨ c = 116) :
    ∃ g2 e2,
      parseSwitch argv argc (c :: cp) i g err = parseSwitch argv argc cp (i + 1) g2 e2 ∧
      (e2 ≠ 0 ↔ err ≠ 0 ∨ argc ≤ i + 1) ∧ SameErr g g2 := by
  by_cases h : i + 1 ≥ argc
  · rcases hc with rfl | rfl | rfl | rfl | rfl
    · exact ⟨g, 152, by rw [parseSwitch]; simp only [↓reduceIte, Nat.reduceEqDiff, h],
        by simp; omega,
        rfl, rfl, rfl⟩
    · exact ⟨g, 164, by rw [parseSwitch]; simp only [↓reduceIte, Nat.reduceEqDiff, h],
        by simp; omega,
        rfl, rfl, rfl⟩
    · exact ⟨g, 173, by rw [parseSwitch]; simp only [↓reduceIte, Nat.reduceEqDiff, h],
        by simp; omega,
        rfl, rfl, rfl⟩
    · exact ⟨g, 196, by rw [parseSwitch]; simp only [↓reduceIte, Nat.reduceEqDiff, h],
        by simp; omega,
        rfl, rfl, rfl⟩
    · exact ⟨g, 204, by rw [parseSwitch]; simp only [↓reduceIte, Nat.reduceEqDiff, h],
        by simp; omega,
        rfl, rfl, rfl⟩
  · have hiff : (err ≠ 0 ↔ err ≠ 0 ∨ argc ≤ i + 1) := by
      constructor
      · exact Or.inl
      · rintro (h1 | h1)
        · exact h1
        · exact absurd h1 h
    rcases hc with rfl | rfl | rfl | rfl | rfl
    · exact ⟨_, err, by rw [parseSwitch]; simp only [↓reduceIte, Nat.reduceEqDiff, h]; rfl,
        hiff,
        by exact ⟨rfl, rfl, rfl⟩⟩
    · exact ⟨_, err, by rw [parseSwitch]; simp only [↓reduceIte, Nat.reduceEqDiff, h]; rfl,
        hiff,
        by exact ⟨rfl, rfl, rfl⟩⟩
    · exact ⟨_, err, by rw [parseSwitch]; simp only [↓reduceIte, Nat.reduceEqDiff, h]; rfl,
        hiff,
        by exact ⟨rfl, rfl, rfl⟩⟩
    · exact ⟨_, err, by rw [parseSwitch]; simp only [↓reduceIte, Nat.reduceEqDiff, h]; rfl,
        hiff,
        by exact ⟨rfl, rfl, rfl⟩⟩
    · exact ⟨_, err, by rw [parseSwitch]; simp only [↓reduceIte, Nat.reduceEqDiff, h]; rfl,
        hiff,
        by exact ⟨rfl, rfl, rfl⟩⟩

theorem parseSwitch_unknown (argv : List (List Nat)) (argc c : Nat) (cp : List Nat) (i : Nat)
    (g : Globals) (err : Nat) (hc : knownSwitch c = false) :
    parseSwitch argv argc (c :: cp) i g err = parseSwitch argv argc cp i g 211 := by
  simp only [knownSwitch, Bool.or_eq_false_iff, decide_eq_false_iff_not] at hc
  obtain ⟨⟨⟨⟨⟨⟨⟨⟨⟨h1, h2⟩, h3⟩, h4⟩, h5⟩, h6⟩, h7⟩, h8⟩, h9⟩, h10⟩ := hc
  rw [parseSwitch]
  simp only [h1, h2, h3, h4, h5, h6, h7, h8, h9, h10, if_false]

theorem parseSwitch_spec (argv : List (List Nat)) (argc : Nat) :
    ∀ (cp : List Nat) (i : Nat) (g : Globals) (err : Nat),
      (parseSwitch argv argc cp i g err).1 = i + cp.countP valueSwitch ∧
      ((parseSwitch argv argc cp i g err).2.2 ≠ 0 ↔
        err ≠ 0 ∨ cp.any (fun c => !knownSwitch c) = true ∨
          (0 < cp.countP valueSwitch ∧ argc ≤ i + cp.countP valueSwitch)) := by
  intro cp
  induction cp with
  | nil => intro i g err; simp [parseSwitch]
  | cons c cp ih =>
    intro i g err
    by_cases hk : knownSwitch c = false
    · have hv : valueSwitch c = false := by
        simp only [knownSwitch, Bool.or_eq_false_iff, decide_eq_false_iff_not] at hk
        simp only [valueSwitch, Bool.or_eq_false_iff, decide_eq_false_iff_not]
        tauto
      rw [parseSwitch_unknown argv argc c cp i g err hk]
      obtain ⟨h1, h2⟩ := ih i g 211
      refine ⟨by rw [h1]; simp [List.countP_cons, hv], ?_⟩
      rw [h2]
      simp [List.countP_cons, hv, hk]
    · have hk1 : knownSwitch c = true := by simpa using hk
      by_cases hv : valueSwitch c = true
      · have hc : c = 98 ∨ c = 104 ∨ c = 108 ∨ c = 115 ∨ c = 116 := by
          simpa [valueSwitch, or_assoc] using hv
        obtain ⟨g2, e2, heq, he2, _⟩ := parseSwitch_value argv argc c cp i g err hc
        obtain ⟨h1, h2⟩ := ih (i + 1) g2 e2
        rw [heq]
        refine ⟨by rw [h1]; simp [List.countP_cons, hv]; omega, ?_⟩
        rw [h2, he2]
        simp only [List.any_cons, hk1, Bool.not_true, Bool.false_or, List.countP_cons, hv,
          if_true]
        constructor
        · rintro ((h | h) | h | h)
          · exact Or.inl h
          · exact Or.inr (Or.inr ⟨by omega, by omega⟩)
          · exact Or.inr (Or.inl h)
          · exact Or.inr (Or.inr ⟨by omega, by omega⟩)
        · rintro (h | h | h)
          · exact Or.inl (Or.inl h)
          · exact Or.inr (Or.inl h)
          · by_cases hz : 0 < List.countP valueSwitch cp
            · exact Or.inr (Or.inr ⟨hz, by omega⟩)
            · exact Or.inl (Or.inr (by omega))
      · have hv0 : valueSwitch c = false := by simpa using hv
        have hc : c = 97 ∨ c = 101 ∨ c = 110 ∨ c = 112 ∨ c = 113 := by
          simp only [knownSwitch, Bool.or_eq_true, decide_eq_true_eq] at hk1
          simp only [valueSwitch, Bool.or_eq_false_iff, decide_eq_false_iff_not] at hv0
          tauto
        obtain ⟨g2, heq, _⟩ := parseSwitch_plain argv argc c cp i g err hc
        obtain ⟨h1, h2⟩ := ih i g2 err
        rw [heq]
        refine ⟨by rw [h1]; simp [List.countP_cons, hv0], ?_⟩
        rw [h2]
        simp [List.countP_cons, hv0, hk1]

theorem usageError_pending :
    ∀ (l : List (List Nat)) (k : Nat),
      usageError k l = if l.length < k then true else usageError 0 (l.drop k) := by
  intro l
  induction l with
  | nil =>
    intro k
    cases k with
    | zero => simp [usageError]
    | succ k => simp [usageError]
  | cons a rest ih =>
    intro k
    cases k with
    | zero => simp
    | succ k =>
      rw [usageError, ih k]
      simp

theorem usageError_dash (cp : List Nat) (rest : List (List Nat)) :
    usageError 0 ((45 :: cp) :: rest) =
      (cp.any (fun c => !knownSwitch c) || usageError (cp.countP valueSwitch) rest) := by
  rw [usageError]

theorem usageError_other (a : List Nat) (rest : List (List Nat))
    (h : ∀ cp, a ≠ 45 :: cp) : usageError 0 (a :: rest) = usageError 0 rest := by
  rw [usageError]
  exact fun cp hcp => h cp hcp

theorem parseArgs_dash (argv : List (List Nat)) (argc fuel i : Nat) (g : Globals) (err : Nat)
    (cp : List Nat) (hi : i < argc) (ha : argv.getD i [] = 45 :: cp) :
    parseArgs argv argc (fuel + 1) i g err =
      parseArgs argv argc fuel ((parseSwitch argv argc cp i g err).1 + 1)
        (parseSwitch argv argc cp i g err).2.1 (parseSwitch argv argc cp i g err).2.2 := by
  rw [parseArgs]
  simp only [hi, if_true, ha]

theorem parseArgs_other (argv : List (List Nat)) (argc fuel i : Nat) (g : Globals) (err : Nat)
    (hi : i < argc) (ha : ∀ cp, argv.getD i [] ≠ 45 :: cp) :
    parseArgs argv argc (fuel + 1) i g err = parseArgs argv argc fuel (i + 1) g err := by
  rw [parseArgs]
  simp only [hi, if_true]

theorem parseArgs_spec (argv : List (List Nat)) :
    ∀ (fuel i : Nat) (g : Globals) (err : Nat), argv.length ≤ fuel + i →
      ((parseArgs argv argv.length fuel i g err).2 ≠ 0 ↔
        err ≠ 0 ∨ usageError 0 (argv.drop i) = true) := by
  intro fuel
  induction fuel with
  | zero =>
    intro i g err h
    rw [parseArgs, List.drop_eq_nil_of_le (by omega)]
    simp [usageError]
  | succ fuel ih =>
    intro i g err h
    by_cases hi : i < argv.length
    · have hdrop : argv.drop i = argv.getD i [] :: argv.drop (i + 1) := by
        rw [List.drop_eq_getElem_cons hi, List.getD_eq_getElem _ _ hi]
      by_cases ha : ∃ cp, argv.getD i [] = 45 :: cp
      · obtain ⟨cp, ha⟩ := ha
        obtain ⟨h1, h2⟩ := parseSwitch_spec argv argv.length cp i g err
        rw [parseArgs_dash argv argv.length fuel i g err cp hi ha, ih _ _ _ (by omega), h2,
          h1, hdrop, ha, usageError_dash, usageError_pending (argv.drop (i + 1)),
          List.drop_drop, List.length_drop]
        have hidx : i + List.countP valueSwitch cp + 1 =
            List.countP valueSwitch cp + (i + 1) := by
          omega
        rw [hidx]
        by_cases hlt : argv.length - (i + 1) < List.countP valueSwitch cp
        · have h3 : 0 < List.countP valueSwitch cp ∧
              argv.length ≤ i + List.countP valueSwitch cp := ⟨by omega, by omega⟩
          simp [hlt, h3]
        · have h3 : ¬(0 < List.countP valueSwitch cp ∧
              argv.length ≤ i + List.countP valueSwitch cp) := by
            intro h3; omega
          simp only [hlt, h3, if_false, or_false, Bool.or_eq_true, or_assoc]
          rw [Nat.add_comm (i + 1)]
      · have ha2 : ∀ cp, argv.getD i [] ≠ 45 :: cp := fun cp hcp => ha ⟨cp, hcp⟩
        rw [parseArgs_other argv argv.length fuel i g err hi ha2, ih _ _ _ (by omega), hdrop,
          usageError_other _ _ ha2]
    · rw [parseArgs, List.drop_eq_nil_of_le (by omega)]
      simp [hi, usageError]

theorem finish_not_usage (g : Globals) (argv : List (List Nat)) (out diag : List Nat) :
    finish g argv ≠ Outcome.exit 255 out diag := by
  unfold finish
  split_ifs <;> simp

theorem mainFromArgv_usage (w : World) (g : Globals) (a0 : List Nat)
    (rest : List (List Nat)) :
    (usageError 0 rest = true →
      mainFromArgv w g (a0 :: rest).length (a0 :: rest) =
        some (Outcome.exit 255 [] usageText)) ∧
    (usageError 0 rest = false → ∀ out diag,
      mainFromArgv w g (a0 :: rest).length (a0 :: rest) ≠
        some (Outcome.exit 255 out diag)) := by
  have hspec := parseArgs_spec (a0 :: rest) (a0 :: rest).length 1 g 0 (by omega)
  simp only [List.drop_succ_cons, List.drop_zero, ne_eq, not_true_eq_false, false_or] at hspec
  unfold mainFromArgv
  cases hp : parseArgs (a0 :: rest) (a0 :: rest).length (a0 :: rest).length 1 g 0 with
  | mk g2 err =>
    rw [hp] at hspec
    simp only at hspec ⊢
    constructor
    · intro hu
      have : err ≠ 0 := hspec.mpr hu
      simp [this]
    · intro hu out diag
      have : err = 0 := by
        by_contra hne
        rw [hspec.mp hne] at hu
        cases hu
      simp only [this, ne_eq, not_true_eq_false, if_false]
      cases acquirePost w g2 with
      | none => simp
      | some g3 =>
        simp only [Option.some.injEq]
        exact finish_not_usage g3 _ out diag

set_option maxRecDepth 1000000 in
/-- C9: in every run, with `argv` the effective argument vector, the strings that `main`
finds when it parses its arguments, the program exits with code 255, with the usage
message of lines 217-220 on the diagnostic stream and nothing on the response output, if
and only if switch parsing meets, in the arguments after `argv[0]`, an unknown switch
character in an argument that begins with `-`, or a value-taking switch `b h l s t`
with no argument after it; arguments consumed as switch values and arguments that do
not begin with `-` are skipped by `usageError`, as by the code. -/
theorem usage_exit_iff (w : World) (ret : Int) (g : Globals) (argc : Nat)
    (argv : List (List Nat))
    (hargv : getArgv w (startState w) = some (ret, g, argc, argv)) :
    (main w = some (Outcome.exit 255 []
        (str "usage: cgiProgram -aenp [-b bytes] [-h lines]\n" ++
          str "\t[-l location] [-s status] [-t timeout]\n" ++
          str "\tor set the HTTP_SWITCHES environment variable\n" ++
          str "Error at cgiProgram:220\n")) ↔ usageError 0 argv.tail = true) ∧
    ((∃ out diag, main w = some (Outcome.exit 255 out diag)) ↔
      usageError 0 argv.tail = true) := by
  have htext : str "usage: cgiProgram -aenp [-b bytes] [-h lines]\n" ++
      str "\t[-l location] [-s status] [-t timeout]\n" ++
      str "\tor set the HTTP_SWITCHES environment variable\n" ++
      str "Error at cgiProgram:220\n" = usageText := by
    decide
  obtain ⟨hret, hargc, hshape⟩ := getArgv_shape w _ g ret argc argv hargv
  have hmain : main w = mainFromArgv w g (w.argv0 :: argv.tail).length
      (w.argv0 :: argv.tail) := by
    unfold main
    rw [hargv, hret, hargc, ← hshape]
    simp
  obtain ⟨h1, h2⟩ := mainFromArgv_usage w g w.argv0 argv.tail
  rw [hmain, htext]
  constructor
  · constructor
    · intro h
      by_contra hu
      exact h2 (by simpa using hu) _ _ h
    · exact h1
  · constructor
    · rintro ⟨out, diag, h⟩
      by_contra hu
      exact h2 (by simpa using hu) _ _ h
    · intro hu
      exact ⟨_, _, h1 hu⟩

set_option maxRecDepth 1000000 in
/-- C9 at the arguments `-a -b`, where the switch `b` has no argument after it, and at
the switch string `-s 201 -b` in a world where `main` finds `-s`, `201` and, in place of
`-b`, a byte 0x01 in the storage that was `sbuf`: what it reads has no usage error, and
the run does not exit with code 255. -/
theorem usage_exit_iff_witness :
    (getArgv (World.simple [str "-a", str "-b"] [] [])
        (startState (World.simple [str "-a", str "-b"] [] [])) =
      some (0, { Globals.init with queryBuf := [0] }, 3,
        [str "cgiProgram", str "-a", str "-b"]) ∧
     usageError 0 [str "-a", str "-b"] = true ∧
     getArgv { World.simple [] [(str "HTTP_SWITCHES", str "-s 201 -b")] [] with
          sbufReuse := fun i tok => if i = 3 then [1] else tok }
        (startState { World.simple [] [(str "HTTP_SWITCHES", str "-s 201 -b")] [] with
          sbufReuse := fun i tok => if i = 3 then [1] else tok }) =
      some (0, { Globals.init with queryBuf := [0] }, 4,
        [str "cgiProgram", str "-s", str "201", [1]]) ∧
     usageError 0 [str "-s", str "201", [1]] = false) ∧
    main (World.simple [str "-a", str "-b"] [] []) =
      some (Outcome.exit 255 []
        (str "usage: cgiProgram -aenp [-b bytes] [-h lines]\n" ++
          str "\t[-l location] [-s status] [-t timeout]\n" ++
          str "\tor set the HTTP_SWITCHES environment variable\n" ++
          str "Error at cgiProgram:220\n")) ∧
    ¬ ∃ out diag,
      main { World.simple [] [(str "HTTP_SWITCHES", str "-s 201 -b")] [] with
        sbufReuse := fun i tok => if i = 3 then [1] else tok } =
        some (Outcome.exit 255 out diag) :=
  ⟨⟨by rfl, by decide, by rfl, by decide⟩,
    (usage_exit_iff (World.simple [str "-a", str "-b"] [] []) 0
      { Globals.init with queryBuf := [0] } 3 [str "cgiProgram", str "-a", str "-b"]
      (by rfl)).1.mpr (by decide),
    fun h => absurd
      ((usage_exit_iff { World.simple [] [(str "HTTP_SWITCHES", str "-s 201 -b")] [] with
          sbufReuse := fun i tok => if i = 3 then [1] else tok } 0
        { Globals.init with queryBuf := [0] } 4
        [str "cgiProgram", str "-s", str "201", [1]] (by rfl)).2.mp h) (by decide)⟩

/-! ## `getPostData` when the input ends early -/

theorem intOfInt_id (x : Int) (h1 : -2 ^ 31 ≤ x) (h2 : x < 2 ^ 31) : intOfInt x = x := by
  unfold intOfInt
  omega

theorem toByte_digit (r : Nat) (h : r < 10) : toByte (48 + (r : Int)) = 48 + r := by
  unfold toByte
  omega

theorem bodyText_length (d : Nat) : (bodyText d).length = d + 2 * (d / 10) := by
  induction d with
  | zero => rfl
  | succ d ih =>
    simp only [bodyText, List.length_append, List.length_cons, List.length_nil, ih]
    split_ifs <;> simp <;> omega

theorem bodyLoop_run (k : Nat) (hk : 0 < k) (hfit : bodyDigits (10 * k) ≤ INT_MAX) :
    ∀ (fuel d : Nat), d ≤ bodyDigits (10 * k) → bodyDigits (10 * k) - d < fuel →
      bodyLoop fuel (d : Int) ((d % 10 : Nat) : Int) ((10 * k + 2 * (d / 10) : Nat) : Int)
          (bodyText d) =
        some (bodyText (bodyDigits (10 * k)), ((bodyDigits (10 * k) : Nat) : Int)) := by
  intro fuel
  induction fuel with
  | zero => intro d _ h; omega
  | succ fuel ih =>
    intro d hd hfuel
    unfold bodyDigits at hfit hd hfuel
    unfold INT_MAX at hfit
    by_cases hlt : d < 10 * k + 2 * ((10 * k - 2) / 8)
    · -- the loop goes on
      have hcond : (d : Int) < ((10 * k + 2 * (d / 10) : Nat) : Int) := by omega
      have hi : intOfInt ((d : Int) + 1) = ((d + 1 : Nat) : Int) := by
        rw [intOfInt_id _ (by omega) (by omega)]; omega
      have hbyte := toByte_digit (d % 10) (Nat.mod_lt _ (by omega))
      have hj : intOfInt (((d % 10 : Nat) : Int) + 1) = ((d % 10 : Nat) : Int) + 1 :=
        intOfInt_id _ (by omega) (by omega)
      have hnext := ih (d + 1) (by unfold bodyDigits; omega) (by unfold bodyDigits; omega)
      rw [bodyLoop]
      simp only [hcond, if_true, hbyte, hj, hi]
      by_cases h9 : d % 10 = 9
      · have hj9 : ((d % 10 : Nat) : Int) + 1 > 9 := by omega
        have hob1 : intOfInt (((10 * k + 2 * (d / 10) : Nat) : Int) + 1) =
            ((10 * k + 2 * (d / 10) : Nat) : Int) + 1 :=
          intOfInt_id _ (by omega) (by omega)
        have hob2 : intOfInt (((10 * k + 2 * (d / 10) : Nat) : Int) + 1 + 1) =
            ((10 * k + 2 * ((d + 1) / 10) : Nat) : Int) := by
          rw [intOfInt_id _ (by omega) (by omega)]; omega
        have hpos1 : ((10 * k + 2 * (d / 10) : Nat) : Int) + 1 > 0 := by omega
        have hpos2 : ((10 * k + 2 * ((d + 1) / 10) : Nat) : Int) > 0 := by omega
        have hj0 : (0 : Int) = (((d + 1) % 10 : Nat) : Int) := by omega
        have htext : bodyText d ++ [48 + d % 10] ++ [13] ++ [10] = bodyText (d + 1) := by
          have : (d + 1) % 10 = 0 := by omega
          simp [bodyText, this]
        simp only [hj9, if_true, hob1, hpos1, hob2, hpos2, htext]
        rw [hj0]
        exact hnext
      · have hj9 : ¬ (((d % 10 : Nat) : Int) + 1 > 9) := by omega
        have hj1 : ((d % 10 : Nat) : Int) + 1 = (((d + 1) % 10 : Nat) : Int) := by omega
        have hob : ((10 * k + 2 * (d / 10) : Nat) : Int) =
            ((10 * k + 2 * ((d + 1) / 10) : Nat) : Int) := by omega
        have htext : bodyText d ++ [48 + d % 10] = bodyText (d + 1) := by
          have : (d + 1) % 10 ≠ 0 := by omega
          simp [bodyText, this]
        simp only [hj9, if_false, htext]
        rw [hj1, hob]
        exact hnext
    · -- the loop ends
      have hdT : d = 10 * k + 2 * ((10 * k - 2) / 8) := by omega
      have hcond : ¬ ((d : Int) < ((10 * k + 2 * (d / 10) : Nat) : Int)) := by omega
      have hob : ((10 * k + 2 * (d / 10) : Nat) : Int) = (d : Int) := by omega
      rw [bodyLoop, if_neg hcond, hob]
      unfold bodyDigits
      rw [← hdT]

theorem bodyLoop_stop (fuel : Nat) (i j outputBytes : Int) (out : List Nat)
    (h : ¬ i < outputBytes) :
    bodyLoop (fuel + 1) i j outputBytes out = some (out, outputBytes) := by
  rw [bodyLoop, if_neg h]

/-- The fuel that `syntheticBody` gives to the loop is never used up: the loop ends, also
when the counter wraps around. -/
theorem bodyLoop_isSome (n : Nat) :
    ∀ (fuel d : Nat) (out : List Nat), 1 ≤ fuel → 5 * n + 8 ≤ 4 * (d + fuel) →
      n + 2 * (d / 10) ≤ INT_MAX →
      (bodyLoop fuel (d : Int) ((d % 10 : Nat) : Int) ((n + 2 * (d / 10) : Nat) : Int)
        out).isSome = true := by
  intro fuel
  induction fuel with
  | zero => intro d out h; omega
  | succ fuel ih =>
    intro d out _ hfuel hfit
    unfold INT_MAX at hfit
    by_cases hcond : (d : Int) < ((n + 2 * (d / 10) : Nat) : Int)
    · have hi : intOfInt ((d : Int) + 1) = ((d + 1 : Nat) : Int) := by
        rw [intOfInt_id _ (by omega) (by omega)]; omega
      have hj : intOfInt (((d % 10 : Nat) : Int) + 1) = ((d % 10 : Nat) : Int) + 1 :=
        intOfInt_id _ (by omega) (by omega)
      rw [bodyLoop]
      simp only [hcond, if_true, hj, hi]
      by_cases h9 : d % 10 = 9
      · have hj9 : ((d % 10 : Nat) : Int) + 1 > 9 := by omega
        simp only [hj9, if_true]
        by_cases hroom : n + 2 * (d / 10) + 2 ≤ 2 ^ 31 - 1
        · have hob1 : intOfInt (((n + 2 * (d / 10) : Nat) : Int) + 1) =
              ((n + 2 * (d / 10) : Nat) : Int) + 1 :=
            intOfInt_id _ (by omega) (by omega)
          have hob2 : intOfInt (((n + 2 * (d / 10) : Nat) : Int) + 1 + 1) =
              ((n + 2 * ((d + 1) / 10) : Nat) : Int) := by
            rw [intOfInt_id _ (by omega) (by omega)]; omega
          have hj0 : (0 : Int) = (((d + 1) % 10 : Nat) : Int) := by omega
          simp only [hob1, hob2]
          rw [hj0]
          exact ih (d + 1) _ (by omega) (by omega) (by unfold INT_MAX; omega)
        · have hneg : ¬ (((d + 1 : Nat) : Int) <
              intOfInt (intOfInt (((n + 2 * (d / 10) : Nat) : Int) + 1) + 1)) := by
            unfold intOfInt
            omega
          obtain ⟨f, rfl⟩ : ∃ f, fuel = f + 1 := ⟨fuel - 1, by omega⟩
          rw [bodyLoop_stop f _ _ _ _ hneg]
          rfl
      · have hj9 : ¬ (((d % 10 : Nat) : Int) + 1 > 9) := by omega
        have hj1 : ((d % 10 : Nat) : Int) + 1 = (((d + 1) % 10 : Nat) : Int) := by omega
        have hob : ((n + 2 * (d / 10) : Nat) : Int) =
            ((n + 2 * ((d + 1) / 10) : Nat) : Int) := by omega
        simp only [hj9, if_false]
        rw [hj1, hob]
        exact ih (d + 1) _ (by omega) (by omega) (by unfold INT_MAX; omega)
    · rw [bodyLoop_stop fuel _ _ _ _ hcond]
      rfl

/-- The embedding of the synthetic body yields a result for every value of `outputBytes`
that an `int` can hold. -/
theorem syntheticBody_isSome (g : Globals) (h1 : -2 ^ 31 ≤ g.outputBytes)
    (h2 : g.outputBytes < 2 ^ 31) : (syntheticBody g).isSome = true := by
  unfold syntheticBody
  by_cases h0 : g.outputBytes = 0
  · simp [h0]
  · rw [if_pos h0]
    by_cases hpos : 0 < g.outputBytes
    · obtain ⟨n, hn⟩ : ∃ n : Nat, g.outputBytes = (n : Int) :=
        ⟨g.outputBytes.toNat, by omega⟩
      have := bodyLoop_isSome n (2 * n + 2) 0 [] (by omega) (by omega)
        (by unfold INT_MAX; omega)
      simp only [Nat.zero_mod, Nat.zero_div, Nat.mul_zero, Nat.add_zero,
        Nat.cast_zero] at this
      rw [hn, Int.toNat_natCast]
      cases hb : bodyLoop (2 * n + 2) 0 0 (n : Int) [] with
      | none => rw [hb] at this; cases this
      | some r => rfl
    · have hstop : ¬ ((0 : Int) < g.outputBytes) := hpos
      rw [show 2 * g.outputBytes.toNat + 2 = (2 * g.outputBytes.toNat + 1) + 1 from rfl,
        bodyLoop_stop _ _ _ _ _ hstop]
      rfl

/-- C11: for every positive multiple of ten `n = 10 * k` for which the counter
`outputBytes`, whose largest value is `bodyDigits n`, does not overflow an `int`, the
synthetic-body loop entered with `outputBytes = n` terminates although its bound is
raised by 2 at every CR LF.  It writes `bodyDigits n` digits, the cycle `0`, ..., `9`
with CR LF after every tenth digit, which is more than `n` characters in total, and
leaves `outputBytes` at `bodyDigits n`. -/
theorem syntheticBody_multiple_of_ten (g : Globals) (k : Nat) (hk : 0 < k)
    (hn : g.outputBytes = ((10 * k : Nat) : Int))
    (hfit : bodyDigits (10 * k) ≤ INT_MAX) :
    syntheticBody g =
      some (bodyText (bodyDigits (10 * k)),
        { g with outputBytes := ((bodyDigits (10 * k) : Nat) : Int) }) ∧
    (bodyText (bodyDigits (10 * k))).length =
      bodyDigits (10 * k) + 2 * (bodyDigits (10 * k) / 10) ∧
    10 * k < bodyDigits (10 * k) ∧
    10 * k < (bodyText (bodyDigits (10 * k))).length := by
  have hrun := bodyLoop_run k hk hfit (2 * (10 * k) + 2) 0 (Nat.zero_le _)
    (by unfold bodyDigits; omega)
  have hne : g.outputBytes ≠ 0 := by rw [hn]; omega
  have hlen := bodyText_length (bodyDigits (10 * k))
  have hmore : 10 * k < bodyDigits (10 * k) := by unfold bodyDigits; omega
  refine ⟨?_, hlen, hmore, by omega⟩
  simp only [Nat.zero_mod, Nat.zero_div, Nat.mul_zero, Nat.add_zero, bodyText] at hrun
  unfold syntheticBody
  rw [if_pos hne, hn, Int.toNat_natCast]
  simp only [Nat.cast_zero] at hrun
  rw [hrun]

/-- C11 at `-b 10`: the switch sets `outputBytes` to 10, and the loop writes 12 digits and
one CR LF, 14 characters. -/
theorem syntheticBody_multiple_of_ten_witness :
    ((parseArgs [str "cgiProgram", str "-b", str "10"] 3 3 1 Globals.init 0).1.outputBytes =
        ((10 * 1 : Nat) : Int) ∧
      bodyDigits (10 * 1) ≤ INT_MAX ∧ bodyDigits (10 * 1) = 12 ∧
      bodyText 12 = str "0123456789\r\n01" ∧ (bodyText 12).length = 14) ∧
    syntheticBody (parseArgs [str "cgiProgram", str "-b", str "10"] 3 3 1 Globals.init 0).1 =
      some (bodyText (bodyDigits (10 * 1)),
        { (parseArgs [str "cgiProgram", str "-b", str "10"] 3 3 1 Globals.init 0).1 with
          outputBytes := ((bodyDigits (10 * 1) : Nat) : Int) }) ∧
    (bodyText (bodyDigits (10 * 1))).length =
      bodyDigits (10 * 1) + 2 * (bodyDigits (10 * 1) / 10) ∧
    10 * 1 < bodyDigits (10 * 1) ∧
    10 * 1 < (bodyText (bodyDigits (10 * 1))).length :=
  ⟨⟨by decide, by decide, by decide, by decide, by decide⟩,
    syntheticBody_multiple_of_ten
      (parseArgs [str "cgiProgram", str "-b", str "10"] 3 3 1 Globals.init 0).1 1
      (by decide) (by decide) (by decide)⟩


end CgiProgram
